import Mathlib

set_option maxHeartbeats 1000000

/-!
Shallow embedding of the relay server in `src/server.py` of the
VIDEO-CONFERENCING-APPLICATION-WORKING-ON-LOCAL-AREA-NETWORK repository.

Python dictionaries are modelled as association lists over decidable key
types (`alookup` / `aset` / `adel` mirror `d.get`, `d[k] = v`, `del d[k]`,
with insertion-order preserved exactly as CPython does).  Python sets are
modelled as duplicate-free lists (`sadd` mirrors `s.add`).  Wall-clock
times (`time.time()`) are passed in as rational parameters; the
millisecond integer time used for outbound frame ids is passed as a
natural number.  Byte strings are `List Nat`.  Network sends are modelled
as pure event lists; a `failing` set of connection ids models the
per-peer `try/except` around `sendall`/`sendto`.
-/

/-- A byte string (one `Nat` per byte). -/
abbrev Bytes := List Nat

/-- A Python scalar value appearing in the pickled control/handshake
dictionaries of this application (strings and non-negative integers). -/
inductive PyVal
  | str : String → PyVal
  | nat : Nat → PyVal
deriving DecidableEq, Repr

/-- Python truthiness of a scalar: the empty string and `0` are falsy. -/
def PyVal.truthy : PyVal → Bool
  | .str s => decide (s ≠ "")
  | .nat n => decide (n ≠ 0)

/-- A Python value or `None`. -/
abbrev PyObj := Option PyVal

/-- Python truthiness with `None` falsy. -/
def pyTruthy : PyObj → Bool
  | none => false
  | some v => v.truthy

/-- `d.get(k)`: first binding of `k` in the association list, if any. -/
def alookup {α β : Type} [DecidableEq α] : List (α × β) → α → Option β
  | [], _ => none
  | p :: t, k => if p.1 = k then some p.2 else alookup t k

/-- `d[k] = v`: replace an existing binding in place, otherwise append
(CPython dicts preserve insertion order). -/
def aset {α β : Type} [DecidableEq α] (l : List (α × β)) (k : α) (v : β) : List (α × β) :=
  if l.any (fun p => decide (p.1 = k)) then
    l.map (fun p => if p.1 = k then (k, v) else p)
  else l ++ [(k, v)]

/-- `del d[k]` (also `d.pop(k, None)`): drop every binding of `k`. -/
def adel {α β : Type} [DecidableEq α] (l : List (α × β)) (k : α) : List (α × β) :=
  l.filter (fun p => decide (p.1 ≠ k))

/-- `s.add(a)` on a set modelled as a duplicate-free list. -/
def sadd {α : Type} [DecidableEq α] (l : List α) (a : α) : List α :=
  if a ∈ l then l else l ++ [a]

/-- A TCP endpoint `(ip, port)` as produced by `socket.accept`. -/
abbrev TcpAddr := String × Nat

/-- A registered UDP address `(ip, port)`; the port component is the raw
value taken from the handshake dictionary, as in the source. -/
abbrev Addr := String × PyVal

/-- One entry of `meet_general_clients[meet_id]`: `(conn, addr, username)`,
with the connection modelled by an identifier. -/
abbrev Peer := Nat × TcpAddr × PyObj

/-- A pickled control message (a Python dict with string keys). -/
abbrev Msg := List (String × PyVal)

/-- The five global maps of `server.py` (`meet_general_clients`,
`meet_video_addrs`, `meet_audio_addrs`, `udp_to_meet`, `udp_to_user`). -/
structure Registry where
  general : List (PyObj × List Peer) := []
  video : List (PyObj × List Addr) := []
  audio : List (PyObj × List Addr) := []
  toMeet : List (Addr × PyObj) := []
  toUser : List (Addr × PyObj) := []
deriving DecidableEq, Repr

/-- The initial (empty) state of the five maps. -/
def emptyRegistry : Registry := {}

/-- The handshake phase of `handle_general` (server.py lines 76-96):
`info = recv_pickle_prefixed(conn)`; `if not info: close; return`
(`none` models a failed receive, `[]` an unpickled empty dict — both
falsy); otherwise the four fields are read with `dict.get` and the
participant and any truthy UDP ports are registered.  Returns the new
registry and whether the handler proceeds (`false` = closed with no
registration). -/
def handshakeStep (st : Registry) (c : Nat) (caddr : TcpAddr) (info : Option Msg) :
    Registry × Bool :=
  match info with
  | none => (st, false)
  | some m =>
    if m = [] then (st, false)
    else
      let username : PyObj := alookup m "username"
      let meet_id : PyObj := alookup m "meet_id"
      let vid : PyObj := alookup m "video_udp_port"
      let aud : PyObj := alookup m "audio_udp_port"
      let ip := caddr.1
      let st1 := { st with
        general := aset st.general meet_id
          (((alookup st.general meet_id).getD []) ++ [(c, caddr, username)]) }
      let st2 :=
        match vid with
        | some v =>
          if v.truthy then
            { st1 with
              video := aset st1.video meet_id (sadd ((alookup st1.video meet_id).getD []) (ip, v)),
              toMeet := aset st1.toMeet (ip, v) meet_id,
              toUser := aset st1.toUser (ip, v) username }
          else st1
        | none => st1
      let st3 :=
        match aud with
        | some v =>
          if v.truthy then
            { st2 with
              audio := aset st2.audio meet_id (sadd ((alookup st2.audio meet_id).getD []) (ip, v)) }
          else st2
        | none => st2
      (st3, true)

/-- server.py lines 131-134: remove this connection's entry from
`meet_general_clients[meet_id]`, deleting the meeting list if it empties. -/
def deregGeneral (st : Registry) (meet_id : PyObj) (caddr : TcpAddr) : Registry :=
  match alookup st.general meet_id with
  | none => st
  | some l =>
    let l2 := l.filter (fun x => decide (x.2.1 ≠ caddr))
    if l2 = [] then { st with general := adel st.general meet_id }
    else { st with general := aset st.general meet_id l2 }

/-- server.py lines 137-142: drop every video address with the client's IP
from this meeting's set, deleting the set if it empties. -/
def deregVideo (st : Registry) (meet_id : PyObj) (client_ip : String) : Registry :=
  match alookup st.video meet_id with
  | none => st
  | some addrs =>
    let keep := addrs.filter (fun a => decide (a.1 ≠ client_ip))
    if keep = [] then { st with video := adel st.video meet_id }
    else { st with video := aset st.video meet_id keep }

/-- server.py lines 143-148: the same for audio addresses. -/
def deregAudio (st : Registry) (meet_id : PyObj) (client_ip : String) : Registry :=
  match alookup st.audio meet_id with
  | none => st
  | some addrs =>
    let keep := addrs.filter (fun a => decide (a.1 ≠ client_ip))
    if keep = [] then { st with audio := adel st.audio meet_id }
    else { st with audio := aset st.audio meet_id keep }

/-- server.py lines 150-153: pop every `udp_to_meet` key with the client's
IP, popping the same keys from `udp_to_user`. -/
def deregUdp (st : Registry) (client_ip : String) : Registry :=
  let delKeys := (st.toMeet.filter (fun kv => decide (kv.1.1 = client_ip))).map (fun kv => kv.1)
  { st with
    toMeet := st.toMeet.filter (fun kv => decide (kv.1.1 ≠ client_ip)),
    toUser := st.toUser.filter (fun kv => decide (kv.1 ∉ delKeys)) }

/-- The `finally` block of `handle_general` (server.py lines 129-153):
the participant list is always cleaned; the UDP registrations are cleaned
only when `meet_id` is truthy (`if meet_id:`). -/
def deregister (st : Registry) (meet_id : PyObj) (caddr : TcpAddr) : Registry :=
  let st1 := deregGeneral st meet_id caddr
  if pyTruthy meet_id then
    deregUdp (deregAudio (deregVideo st1 meet_id caddr.1) meet_id caddr.1) caddr.1
  else st1

/-- Registry states reachable from the empty maps by handshakes and
disconnects. -/
inductive Reachable : Registry → Prop
  | init : Reachable emptyRegistry
  | reg (st : Registry) (c : Nat) (a : TcpAddr) (info : Option Msg) :
      Reachable st → Reachable (handshakeStep st c a info).1
  | dereg (st : Registry) (m : PyObj) (a : TcpAddr) :
      Reachable st → Reachable (deregister st m a)

/-- The direction of the spec's address-index invariant that the code
maintains: every `udp_to_meet` entry maps an address into that meeting's
video address set. -/
def forwardInv (st : Registry) : Prop :=
  ∀ kv ∈ st.toMeet, kv.1 ∈ (alookup st.video kv.2).getD []

/-- `FRAME_TTL = 2.0` (seconds). -/
def FRAME_TTL : ℚ := 2

/-- `MAX_UDP_PAYLOAD = 60000`. -/
def MAX_UDP_PAYLOAD : Nat := 60000

/-- One value of `video_reassembly`: `{'parts': {idx: bytes}, 'total': int,
'ts': float}`. -/
structure Entry where
  parts : List (Nat × Bytes)
  total : Nat
  ts : ℚ
deriving DecidableEq, Repr

/-- A reassembly key `(sender_addr, frame_id)`. -/
abbrev RKey := Addr × Nat

/-- The `video_reassembly` map. -/
abbrev RState := List (RKey × Entry)

/-- `[entry['parts'][i] for i in range(total)]`, reading `k` indices
starting at `i`; `none` models the `KeyError` raised when an index is
missing (caught by the listener's outer `except`). -/
def collectFrom (parts : List (Nat × Bytes)) : Nat → Nat → Option (List Bytes)
  | _, 0 => some []
  | i, k + 1 =>
    match alookup parts i, collectFrom parts (i + 1) k with
    | some b, some rest => some (b :: rest)
    | _, _ => none

/-- The reassembly part of `video_udp_listener` for one datagram
(server.py lines 170-181): look up or create the entry (recording the
first datagram's declared total), store the fragment, refresh `ts`, and
when the number of distinct stored indices equals `total`, join the parts
in index order, delete the entry and emit the reconstructed payload.  If
the index-order read raises `KeyError`, the mutated entry stays in the
map and nothing is emitted. -/
def fragStep (st : RState) (sender : Addr) (frameId total idx : Nat) (pl : Bytes) (now : ℚ) :
    RState × Option Bytes :=
  let key : RKey := (sender, frameId)
  let e0 : Entry :=
    match alookup st key with
    | some e => e
    | none => { parts := [], total := total, ts := now }
  let e1 : Entry := { e0 with parts := aset e0.parts idx pl, ts := now }
  if e1.parts.length = e1.total then
    match collectFrom e1.parts 0 e1.total with
    | some ps => (adel st key, some ps.flatten)
    | none => (aset st key e1, none)
  else (aset st key e1, none)

/-- One pass of `cleanup_old_reassembly` (server.py lines 61-68): delete
every entry whose last-touched timestamp is more than `FRAME_TTL` old. -/
def sweepStep (st : RState) (now : ℚ) : RState :=
  st.filter (fun kv => !(decide (now - kv.2.ts > FRAME_TTL)))

/-- An event seen by the reassembly state: a fragment datagram arriving at
the video listener, or one sweep of the cleanup thread. -/
inductive REv
  | frag (sender : Addr) (frameId total idx : Nat) (pl : Bytes) (t : ℚ)
  | sweep (t : ℚ)
deriving DecidableEq, Repr

/-- Run a sequence of events against the reassembly map, collecting the
reconstructed payloads together with the key they were reassembled under. -/
def runR : RState → List REv → RState × List (RKey × Bytes)
  | st, [] => (st, [])
  | st, REv.frag s f tot i pl t :: rest =>
    let r := fragStep st s f tot i pl t
    let r2 := runR r.1 rest
    (r2.1, (match r.2 with | some b => [((s, f), b)] | none => []) ++ r2.2)
  | st, REv.sweep t :: rest => runR (sweepStep st t) rest

/-- Build the fragment-arrival events for one logical frame: index/payload
pairs `arr` delivered with per-arrival timestamps `times`, all declaring
total `tot` under key `(s, fid)`. -/
def mkFragEvs (s : Addr) (fid tot : Nat) (arr : List (Nat × Bytes)) (times : List ℚ) : List REv :=
  List.zipWith (fun (ib : Nat × Bytes) t => REv.frag s fid tot ib.1 ib.2 t) arr times

/-- An outbound video datagram, structured: (frame id, total, index,
fragment payload); `struct.pack` framing is a bijection on these fields. -/
abbrev VPacket := Nat × Nat × Nat × Bytes

/-- The outbound re-fragmentation loop of `video_udp_listener` (server.py
lines 201-207): split into `ceil(len/60000)` slices, with frame id
`int(time*1000) & 0xFFFFFFFF` taken from the millisecond clock `tMs`. -/
def refragment (tMs : Nat) (pl : Bytes) : List VPacket :=
  let total := (pl.length + MAX_UDP_PAYLOAD - 1) / MAX_UDP_PAYLOAD
  (List.range total).map (fun idx =>
    (tMs % 4294967296, total, idx, (pl.drop (idx * MAX_UDP_PAYLOAD)).take MAX_UDP_PAYLOAD))

/-- Meeting resolution of `video_udp_listener` (server.py lines 183-191):
`udp_to_meet.get(sender)`, and if that is falsy, the first meeting in
`meet_video_addrs` iteration order containing any address with the
sender's IP. -/
def resolveMeet (reg : Registry) (sender : Addr) : PyObj :=
  let m := (alookup reg.toMeet sender).getD none
  if pyTruthy m then m
  else
    match reg.video.find? (fun mv => mv.2.any (fun a => decide (a.1 = sender.1))) with
    | some mv => mv.1
    | none => m

/-- The forwarding part of `video_udp_listener` (server.py lines 182-211):
if no truthy meeting resolves, nothing is sent (`continue`); otherwise
each registered video address other than the sender receives an
independently re-fragmented copy of the reconstructed bytes. -/
def forwardPayload (reg : Registry) (sender : Addr) (pl : Bytes) (tMs : Nat) :
    List (Addr × VPacket) :=
  let m := resolveMeet reg sender
  if pyTruthy m then
    ((alookup reg.video m).getD []).flatMap (fun peer =>
      if peer = sender then [] else (refragment tMs pl).map (fun q => (peer, q)))
  else []

/-- One full iteration of `video_udp_listener` for a parsed datagram:
reassembly, then (on completion) meeting resolution and fan-out. -/
def videoStep (reg : Registry) (rst : RState) (sender : Addr) (frameId total idx : Nat)
    (pl : Bytes) (now : ℚ) (tMs : Nat) : RState × List (Addr × VPacket) :=
  let r := fragStep rst sender frameId total idx pl now
  match r.2 with
  | none => (r.1, [])
  | some payload => (r.1, forwardPayload reg sender payload tMs)

/-- One iteration of `audio_udp_listener` (server.py lines 219-232): an
empty datagram is dropped (`if not pkt: continue`); otherwise, for every
meeting whose audio set contains an address with the sender's IP (the
loop has no `break`), forward the raw packet to each address of that set
other than the sender's exact address. -/
def audioStep (reg : Registry) (sender : Addr) (pkt : Bytes) : List (Addr × Bytes) :=
  if pkt = [] then []
  else
    reg.audio.flatMap (fun ma =>
      if ma.2.any (fun a => decide (a.1 = sender.1)) then
        (ma.2.filter (fun peer => decide (peer ≠ sender))).map (fun peer => (peer, pkt))
      else [])

/-- A TCP send to one peer: a length-prefixed pickled message
(`send_pickle_prefixed`) or a raw chunk (`sendall`). -/
inductive TOut
  | pmsg : Msg → TOut
  | raw : Bytes → TOut
deriving DecidableEq, Repr

/-- The broadcast loop of `handle_general` (server.py lines 105-110): try
to send the message to every peer whose address differs from the
sender's; `failing` is the set of connections whose send raises (the
exception is swallowed per peer). -/
def broadcastMsg (peers : List Peer) (saddr : TcpAddr) (failing : List Nat) (m : Msg) :
    List (Nat × TOut) :=
  peers.filterMap (fun p =>
    if p.2.1 ≠ saddr then
      (if p.1 ∈ failing then none else some (p.1, TOut.pmsg m))
    else none)

/-- The file-body relay loop of `handle_general` (server.py lines 114-126):
while bytes remain, read `min(1024, remaining)` bytes from the sender's
stream (`recv_exact`; a short stream models a closed connection and stops
the loop with the stream consumed) and forward the chunk to every
non-sender peer. -/
def fileLoop (peers : List Peer) (saddr : TcpAddr) (failing : List Nat)
    (stream : Bytes) (remaining : Nat) : List (Nat × TOut) × Bytes :=
  if remaining = 0 then ([], stream)
  else
    let csz := min 1024 remaining
    if stream.length < csz then ([], [])
    else
      let chunk := stream.take csz
      let evs := peers.filterMap (fun p =>
        if p.2.1 ≠ saddr then
          (if p.1 ∈ failing then none else some (p.1, TOut.raw chunk))
        else none)
      let r := fileLoop peers saddr failing (stream.drop csz) (remaining - csz)
      (evs ++ r.1, r.2)
termination_by remaining
decreasing_by
  simp_wf
  omega

/-- One iteration of the message loop of `handle_general` (server.py lines
100-126) for a received non-handshake message: broadcast it, and if it is
a file header, stream `size` raw bytes from the sender to the same peer
snapshot.  `none` models the handler dying on a non-integer `size`
(`TypeError` in `remaining > 0`).  Returns the send events and the bytes
left unread on the sender's stream. -/
def relayIteration (peers : List Peer) (saddr : TcpAddr) (failing : List Nat) (m : Msg)
    (stream : Bytes) : Option (List (Nat × TOut) × Bytes) :=
  let hdr := broadcastMsg peers saddr failing m
  if alookup m "msg_type" = some (PyVal.str "file") then
    match (match alookup m "size" with
           | none => some 0
           | some (PyVal.nat n) => some n
           | some (PyVal.str _) => none) with
    | none => none
    | some size =>
      let r := fileLoop peers saddr failing stream size
      some (hdr ++ r.1, r.2)
  else some (hdr, stream)

/-- The 1024-byte chunking of a buffer, as produced by the file loop when
the declared size matches the body length. -/
def chunks1024 (b : Bytes) : List Bytes :=
  if b = [] then []
  else b.take 1024 :: chunks1024 (b.drop 1024)
termination_by b.length
decreasing_by
  simp_wf
  have hb : 0 < b.length := List.length_pos.mpr (by assumption)
  omega

/-- The sequence of TCP payloads delivered to connection `c`, in order. -/
def sentTo (evs : List (Nat × TOut)) (c : Nat) : List TOut :=
  (evs.filter (fun e => decide (e.1 = c))).map (fun e => e.2)

/-- The sequence of video datagrams delivered to UDP address `a`, in order. -/
def vSentTo (sends : List (Addr × VPacket)) (a : Addr) : List VPacket :=
  (sends.filter (fun e => decide (e.1 = a))).map (fun e => e.2)


/-! ### Concrete fixtures used by counterexamples and witnesses -/

/-- A sender UDP address used in concrete scenarios. -/
def sA : Addr := ("10.0.0.1", PyVal.nat 5000)

/-- A second registered video address (a different host). -/
def sB : Addr := ("10.0.0.2", PyVal.nat 6000)

/-- A registry for the audio counterexample: the sender's IP has audio
addresses registered in two different meetings. -/
def c9reg : Registry :=
  { audio := [(some (PyVal.str "m1"), [("ipA", PyVal.nat 1), ("ipB", PyVal.nat 2)]),
              (some (PyVal.str "m2"), [("ipA", PyVal.nat 3), ("ipC", PyVal.nat 4)])] }

/-- The event trace for the reassembly-TTL counterexample: a 3-fragment
frame keyed `(sA, 7)` created at `t = 0`, whose fragments arrive at
`t = 0, 2, 4` while the sweeper runs every second. -/
def c2evs : List REv :=
  [REv.frag sA 7 3 0 [10] 0, REv.sweep 1, REv.sweep 2, REv.frag sA 7 3 1 [20] 2,
   REv.sweep 3, REv.sweep 4, REv.frag sA 7 3 2 [30] 4]

/-- The first four events of `c2evs` (everything up to `t = 2`, the end of
the claim's 2-second window after the buffer's creation). -/
def c2evsEarly : List REv :=
  [REv.frag sA 7 3 0 [10] 0, REv.sweep 1, REv.sweep 2, REv.frag sA 7 3 1 [20] 2]

/-- A registry in which meeting `"m"` has `sA` and `sB` registered for
video, with the exact reverse mapping for `sA`. -/
def c7reg : Registry :=
  { video := [(some (PyVal.str "m"), [sA, sB])],
    toMeet := [(sA, some (PyVal.str "m"))] }

/-- A non-empty handshake dict that carries a video port but neither
`username` nor `meet_id`. -/
def c3msg : Msg := [("video_udp_port", PyVal.nat 5000)]

/-- Handshake of user A: video port 5000 from IP 10.0.0.1 into meeting m1. -/
def c4msgA : Msg :=
  [("username", PyVal.str "A"), ("meet_id", PyVal.str "m1"), ("video_udp_port", PyVal.nat 5000)]

/-- Handshake of user B: video port 6000 from the same IP into meeting m2. -/
def c4msgB : Msg :=
  [("username", PyVal.str "B"), ("meet_id", PyVal.str "m2"), ("video_udp_port", PyVal.nat 6000)]

/-- The registry after both same-IP registrations. -/
def c4st2 : Registry :=
  (handshakeStep (handshakeStep emptyRegistry 1 ("10.0.0.1", 1000) (some c4msgA)).1
    2 ("10.0.0.1", 1001) (some c4msgB)).1

/-- The registry after A's connection then deregisters. -/
def c4st3 : Registry := deregister c4st2 (some (PyVal.str "m1")) ("10.0.0.1", 1000)

/-- A registry with one participant registered under meeting `None`
(handshake carries a video port but no `meet_id`, which registration
accepts — see the C3 counterexample). -/
def c4stF : Registry :=
  (handshakeStep emptyRegistry 3 ("10.0.0.3", 1002)
    (some [("username", PyVal.str "C"), ("video_udp_port", PyVal.nat 7000)])).1

/-- The registry after that participant deregisters: its meeting id is
`None` (falsy), so `if meet_id:` skips the entire UDP cleanup. -/
def c4stF2 : Registry := deregister c4stF none ("10.0.0.3", 1002)

/-! ### Association-list lemmas -/

theorem alookup_append {α β : Type} [DecidableEq α] (l l2 : List (α × β)) (k : α) :
    alookup (l ++ l2) k = match alookup l k with | some v => some v | none => alookup l2 k := by
  induction l with
  | nil => simp [alookup]
  | cons p t ih =>
    by_cases hp : p.1 = k
    · simp [alookup, hp]
    · simp [alookup, hp, ih]

theorem alookup_none_of_any_false {α β : Type} [DecidableEq α] (l : List (α × β)) (k : α)
    (h : l.any (fun p => decide (p.1 = k)) = false) : alookup l k = none := by
  induction l with
  | nil => rfl
  | cons p t ih =>
    simp only [List.any_cons, Bool.or_eq_false_iff, decide_eq_false_iff_not] at h
    simp [alookup, h.1, ih h.2]

theorem alookup_map_overwrite_ne {α β : Type} [DecidableEq α] (l : List (α × β)) (k k' : α)
    (v : β) (h : k' ≠ k) :
    alookup (l.map (fun p => if p.1 = k then (k, v) else p)) k' = alookup l k' := by
  induction l with
  | nil => rfl
  | cons p t ih =>
    by_cases hp : p.1 = k
    · simp only [List.map_cons, if_pos hp, alookup]
      rw [if_neg (fun hh : k = k' => h hh.symm), if_neg (fun hh : p.1 = k' => h (hh.symm.trans hp))]
      exact ih
    · simp only [List.map_cons, if_neg hp]
      by_cases hq : p.1 = k'
      · simp [alookup, hq]
      · simp [alookup, hq, ih]

theorem alookup_map_overwrite_self {α β : Type} [DecidableEq α] (l : List (α × β)) (k : α)
    (v : β) (h : l.any (fun p => decide (p.1 = k)) = true) :
    alookup (l.map (fun p => if p.1 = k then (k, v) else p)) k = some v := by
  induction l with
  | nil => simp at h
  | cons p t ih =>
    by_cases hp : p.1 = k
    · simp [alookup, hp]
    · simp only [List.any_cons, Bool.or_eq_true, decide_eq_true_eq] at h
      rcases h with h | h
      · exact absurd h hp
      · simp only [List.map_cons, if_neg hp, alookup, if_neg hp]
        exact ih h

theorem alookup_aset_self {α β : Type} [DecidableEq α] (l : List (α × β)) (k : α) (v : β) :
    alookup (aset l k v) k = some v := by
  unfold aset
  split
  · exact alookup_map_overwrite_self l k v (by assumption)
  · rename_i h
    have h' : l.any (fun p => decide (p.1 = k)) = false := by
      cases hx : l.any (fun p => decide (p.1 = k)) with
      | false => rfl
      | true => exact absurd hx h
    rw [alookup_append, alookup_none_of_any_false l k h']
    simp [alookup]

theorem alookup_aset_ne {α β : Type} [DecidableEq α] (l : List (α × β)) (k k' : α) (v : β)
    (h : k' ≠ k) : alookup (aset l k v) k' = alookup l k' := by
  unfold aset
  split
  · exact alookup_map_overwrite_ne l k k' v h
  · rw [alookup_append]
    cases hl : alookup l k' with
    | some w => rfl
    | none =>
      simp only [alookup]
      rw [if_neg (fun hh : k = k' => h hh.symm)]

theorem alookup_filter_key {α β : Type} [DecidableEq α] (l : List (α × β)) (q : α → Bool)
    (k : α) : alookup (l.filter (fun p => q p.1)) k
      = if q k then alookup l k else none := by
  induction l with
  | nil => simp [alookup]
  | cons p t ih =>
    by_cases hp : p.1 = k
    · subst hp
      cases hq : q p.1 <;> simp [alookup, hq, ih]
    · cases hq : q p.1 <;> simp [alookup, hq, hp, ih]

theorem alookup_mem {α β : Type} [DecidableEq α] {l : List (α × β)} {k : α} {v : β}
    (h : alookup l k = some v) : (k, v) ∈ l := by
  induction l with
  | nil => simp [alookup] at h
  | cons p t ih =>
    by_cases hp : p.1 = k
    · simp only [alookup, if_pos hp] at h
      injection h with hv
      subst hv
      obtain ⟨a, b⟩ := p
      simp only at hp
      subst hp
      exact List.mem_cons_self _ _
    · simp only [alookup, if_neg hp] at h
      exact List.mem_cons_of_mem _ (ih h)

theorem mem_sadd {α : Type} [DecidableEq α] (l : List α) (a x : α) :
    x ∈ sadd l a ↔ x ∈ l ∨ x = a := by
  unfold sadd
  split <;> rename_i h
  · constructor
    · exact fun hx => Or.inl hx
    · rintro (hx | rfl)
      · exact hx
      · exact h
  · constructor
    · intro hx
      rcases List.mem_append.mp hx with hx | hx
      · exact Or.inl hx
      · exact Or.inr (List.mem_singleton.mp hx)
    · rintro (hx | rfl)
      · exact List.mem_append_left _ hx
      · exact List.mem_append_right _ (List.mem_singleton.mpr rfl)

theorem aset_absent {α β : Type} [DecidableEq α] (l : List (α × β)) (k : α) (v : β)
    (h : l.any (fun p => decide (p.1 = k)) = false) : aset l k v = l ++ [(k, v)] := by
  unfold aset
  simp [h]

theorem aset_length_present {α β : Type} [DecidableEq α] (l : List (α × β)) (k : α) (v : β)
    (h : l.any (fun p => decide (p.1 = k)) = true) : (aset l k v).length = l.length := by
  unfold aset
  simp [h]

theorem any_key_of_alookup_some {α β : Type} [DecidableEq α] {l : List (α × β)} {k : α} {v : β}
    (h : alookup l k = some v) : l.any (fun p => decide (p.1 = k)) = true := by
  exact List.any_eq_true.mpr ⟨(k, v), alookup_mem h, by simp⟩

/-! ### C10: duplicate fragments are idempotent for completion -/

/-- C10: storing a fragment whose index is already present in a reassembly
buffer overwrites the stored bytes without increasing the distinct-index
count, and the step emits a payload only when the number of distinct
stored indices equals the declared total — never merely because the same
index arrived repeatedly. -/
theorem C10_duplicate_fragment_idempotent
    (st : RState) (sender : Addr) (frameId total idx : Nat) (pl : Bytes) (now : ℚ)
    (e : Entry) (old : Bytes)
    (he : alookup st (sender, frameId) = some e)
    (hidx : alookup e.parts idx = some old) :
    (aset e.parts idx pl).length = e.parts.length ∧
    alookup (aset e.parts idx pl) idx = some pl ∧
    ((fragStep st sender frameId total idx pl now).2.isSome = true →
      e.parts.length = e.total) := by
  have hany := any_key_of_alookup_some hidx
  have hlen := aset_length_present e.parts idx pl hany
  refine ⟨hlen, alookup_aset_self _ _ _, ?_⟩
  intro hsome
  unfold fragStep at hsome
  simp only [he] at hsome
  split at hsome
  · rename_i hc
    rw [← hlen]
    exact hc
  · exact Bool.noConfusion hsome

/-- Witness for C10 at a concrete buffer: key `(sA, 7)` already holds
index 0; a duplicate index-0 datagram overwrites it and cannot complete
the 2-fragment buffer. -/
theorem C10_witness :
    (aset ([(0, [10])] : List (Nat × Bytes)) 0 [99]).length
        = ([(0, [10])] : List (Nat × Bytes)).length ∧
    alookup (aset ([(0, [10])] : List (Nat × Bytes)) 0 [99]) 0 = some [99] ∧
    ((fragStep [((sA, 7), ⟨[(0, [10])], 2, 0⟩)] sA 7 2 0 [99] 1).2.isSome = true →
      (⟨[(0, [10])], 2, 0⟩ : Entry).parts.length = (⟨[(0, [10])], 2, 0⟩ : Entry).total) :=
  C10_duplicate_fragment_idempotent [((sA, 7), ⟨[(0, [10])], 2, 0⟩)] sA 7 2 0 [99] 1
    ⟨[(0, [10])], 2, 0⟩ [10] (by decide) (by decide)

/-! ### C9: audio relay -/

/-- C9 counterexample: with the sender's IP carrying audio registrations
in two meetings, the relay forwards the packet to `("ipC", 4)`, an
address registered only in meeting `m2`, although the sender's exact
address is registered in meeting `m1` — refuting "to no address in any
other meeting". -/
theorem C9_counterexample :
    (("ipC", PyVal.nat 4), ([9, 9] : Bytes)) ∈ audioStep c9reg ("ipA", PyVal.nat 1) [9, 9] ∧
    ("ipA", PyVal.nat 1) ∈ (alookup c9reg.audio (some (PyVal.str "m1"))).getD [] ∧
    ("ipC", PyVal.nat 4) ∉ (alookup c9reg.audio (some (PyVal.str "m1"))).getD [] ∧
    ("ipC", PyVal.nat 4) ∈ (alookup c9reg.audio (some (PyVal.str "m2"))).getD [] := by
  decide

/-- C9 (amended): an empty audio datagram is dropped; a non-empty one is
forwarded verbatim to every other registered audio address of **every**
meeting containing an audio address whose IP matches the sender's (the
scan has no `break`), and never to the sender's exact address. -/
theorem C9_audio_forwarding_characterised (reg : Registry) (sender : Addr) (pkt : Bytes)
    (hne : pkt ≠ []) :
    (∀ q : Addr × Bytes, q ∈ audioStep reg sender pkt ↔
      ∃ ma ∈ reg.audio, (∃ b ∈ ma.2, b.1 = sender.1) ∧ q.1 ∈ ma.2 ∧ q.1 ≠ sender ∧ q.2 = pkt) ∧
    (∀ b : Bytes, (sender, b) ∉ audioStep reg sender pkt) ∧
    audioStep reg sender [] = [] := by
  have hrw : audioStep reg sender pkt = reg.audio.flatMap (fun ma =>
      if ma.2.any (fun a => decide (a.1 = sender.1)) then
        (ma.2.filter (fun peer => decide (peer ≠ sender))).map (fun peer => (peer, pkt))
      else []) := by
    unfold audioStep
    rw [if_neg hne]
  have main : ∀ q : Addr × Bytes, q ∈ audioStep reg sender pkt ↔
      ∃ ma ∈ reg.audio, (∃ b ∈ ma.2, b.1 = sender.1) ∧ q.1 ∈ ma.2 ∧ q.1 ≠ sender ∧ q.2 = pkt := by
    intro q
    rw [hrw]
    constructor
    · intro hq
      rcases List.mem_flatMap.mp hq with ⟨ma, hma, hq2⟩
      by_cases hc : ma.2.any (fun a => decide (a.1 = sender.1)) = true
      · rw [if_pos hc] at hq2
        rcases List.mem_map.mp hq2 with ⟨peer, hpeer, hpq⟩
        rcases List.mem_filter.mp hpeer with ⟨hpmem, hpne⟩
        rcases List.any_eq_true.mp hc with ⟨b, hb, hb2⟩
        subst hpq
        exact ⟨ma, hma, ⟨b, hb, by simpa using hb2⟩, hpmem, by simpa using hpne, rfl⟩
      · rw [if_neg hc] at hq2
        simp at hq2
    · rintro ⟨ma, hma, ⟨b, hb, hbip⟩, hqmem, hqne, hqpkt⟩
      refine List.mem_flatMap.mpr ⟨ma, hma, ?_⟩
      rw [if_pos (List.any_eq_true.mpr ⟨b, hb, by simpa using hbip⟩)]
      refine List.mem_map.mpr ⟨q.1, List.mem_filter.mpr ⟨hqmem, by simpa using hqne⟩, ?_⟩
      obtain ⟨q1, q2⟩ := q
      simp only at hqpkt
      subst hqpkt
      rfl
  refine ⟨main, fun b hmem => ?_, by simp [audioStep]⟩
  rcases (main (sender, b)).mp hmem with ⟨ma, _, _, _, hsne, _⟩
  exact hsne rfl

/-- Witness for C9 (amended) at the two-meeting registry and a concrete
non-empty packet. -/
theorem C9_witness :
    (∀ q : Addr × Bytes, q ∈ audioStep c9reg ("ipA", PyVal.nat 1) [9, 9] ↔
      ∃ ma ∈ c9reg.audio, (∃ b ∈ ma.2, b.1 = "ipA") ∧ q.1 ∈ ma.2
        ∧ q.1 ≠ ("ipA", PyVal.nat 1) ∧ q.2 = [9, 9]) ∧
    (∀ b : Bytes, (("ipA", PyVal.nat 1), b) ∉ audioStep c9reg ("ipA", PyVal.nat 1) [9, 9]) ∧
    audioStep c9reg ("ipA", PyVal.nat 1) [] = [] :=
  C9_audio_forwarding_characterised c9reg ("ipA", PyVal.nat 1) [9, 9] (by decide)

/-! ### C3: handshake validation -/

/-- C3 counterexample: the non-empty handshake `c3msg` carries neither
`username` nor `meet_id`, yet the handler proceeds (connection not
closed) and registers the participant under meeting `None` — the meeting
map, an address set and the reverse index all change. -/
theorem C3_counterexample :
    (handshakeStep emptyRegistry 1 ("9.9.9.9", 40000) (some c3msg)).2 = true ∧
    alookup c3msg "username" = none ∧
    alookup c3msg "meet_id" = none ∧
    (1, ("9.9.9.9", 40000), (none : PyObj)) ∈
      (alookup (handshakeStep emptyRegistry 1 ("9.9.9.9", 40000) (some c3msg)).1.general
        (none : PyObj)).getD [] ∧
    alookup (handshakeStep emptyRegistry 1 ("9.9.9.9", 40000) (some c3msg)).1.toMeet
      ("9.9.9.9", PyVal.nat 5000) = some none := by
  decide

/-- C3 (amended): only a first message that fails to parse (`None`) or is
an empty dict is rejected — the connection is closed with the registry
untouched; any non-empty first message, even one missing `username` or
`meet_id`, is accepted and the participant is registered under the
(possibly `None`) values read from it. -/
theorem C3_falsy_handshake_rejected_nonempty_registered
    (st : Registry) (c : Nat) (a : TcpAddr) (m : Msg) (hm : m ≠ []) :
    handshakeStep st c a none = (st, false) ∧
    handshakeStep st c a (some []) = (st, false) ∧
    (handshakeStep st c a (some m)).2 = true ∧
    (c, a, alookup m "username") ∈
      (alookup (handshakeStep st c a (some m)).1.general (alookup m "meet_id")).getD [] := by
  have hgen : (handshakeStep st c a (some m)).1.general
      = aset st.general (alookup m "meet_id")
          (((alookup st.general (alookup m "meet_id")).getD [])
            ++ [(c, a, alookup m "username")]) := by
    simp only [handshakeStep]
    rw [if_neg hm]
    rcases hv : alookup m "video_udp_port" with _ | v <;>
      rcases ha : alookup m "audio_udp_port" with _ | w <;>
      simp only [hv, ha] <;>
      (repeat' split) <;> rfl
  refine ⟨rfl, rfl, ?_, ?_⟩
  · simp only [handshakeStep]
    rw [if_neg hm]
  · rw [hgen, alookup_aset_self]
    simp

/-- Witness for C3 (amended) at a concrete non-empty handshake. -/
theorem C3_witness :
    handshakeStep emptyRegistry 2 ("1.1.1.1", 5) none = (emptyRegistry, false) ∧
    handshakeStep emptyRegistry 2 ("1.1.1.1", 5) (some []) = (emptyRegistry, false) ∧
    (handshakeStep emptyRegistry 2 ("1.1.1.1", 5) (some [("username", PyVal.str "u")])).2 = true ∧
    (2, ("1.1.1.1", 5), alookup [("username", PyVal.str "u")] "username") ∈
      (alookup (handshakeStep emptyRegistry 2 ("1.1.1.1", 5)
        (some [("username", PyVal.str "u")])).1.general
        (alookup [("username", PyVal.str "u")] "meet_id")).getD [] :=
  C3_falsy_handshake_rejected_nonempty_registered emptyRegistry 2 ("1.1.1.1", 5)
    [("username", PyVal.str "u")] (by decide)

/-! ### Fan-out lemmas shared by the control-channel claims -/

theorem sentTo_append (a b : List (Nat × TOut)) (c : Nat) :
    sentTo (a ++ b) c = sentTo a c ++ sentTo b c := by
  simp [sentTo, List.filter_append]

theorem sentTo_keyed_nil (t : List Peer) (h : Peer → Option TOut) (c : Nat)
    (hc : c ∉ t.map (fun p => p.1)) :
    sentTo (t.filterMap (fun p => (h p).map (fun o => (p.1, o)))) c = [] := by
  induction t with
  | nil => rfl
  | cons p t ih =>
    simp only [List.map_cons, List.mem_cons] at hc
    push_neg at hc
    cases hp : h p with
    | none =>
      simp only [List.filterMap_cons, hp, Option.map_none']
      exact ih hc.2
    | some o =>
      simp only [List.filterMap_cons, hp, Option.map_some']
      unfold sentTo
      simp only [List.filter_cons]
      have hdec : (decide ((p.1, o).1 = c)) = false := by
        simp only [decide_eq_false_iff_not]
        exact fun hh => hc.1 hh.symm
      rw [hdec]
      exact ih hc.2

theorem sentTo_keyed (peers : List Peer) (h : Peer → Option TOut) (q : Peer)
    (hnd : (peers.map (fun p => p.1)).Nodup) (hq : q ∈ peers) :
    sentTo (peers.filterMap (fun p => (h p).map (fun o => (p.1, o)))) q.1 = (h q).toList := by
  induction peers with
  | nil => cases hq
  | cons p t ih =>
    simp only [List.map_cons, List.nodup_cons] at hnd
    rcases List.mem_cons.mp hq with rfl | hq2
    · cases hp : h q with
      | none =>
        simp only [List.filterMap_cons, hp, Option.map_none']
        rw [sentTo_keyed_nil t h q.1 hnd.1]
        rfl
      | some o =>
        simp only [List.filterMap_cons, hp, Option.map_some']
        unfold sentTo
        simp only [List.filter_cons]
        have hrest := sentTo_keyed_nil t h q.1 hnd.1
        unfold sentTo at hrest
        simp [hrest]
    · have hne : p.1 ≠ q.1 := by
        intro hh
        exact hnd.1 (hh ▸ List.mem_map.mpr ⟨q, hq2, rfl⟩)
      cases hp : h p with
      | none =>
        simp only [List.filterMap_cons, hp, Option.map_none']
        exact ih hnd.2 hq2
      | some o =>
        simp only [List.filterMap_cons, hp, Option.map_some']
        unfold sentTo
        simp only [List.filter_cons]
        have hdec : (decide ((p.1, o).1 = q.1)) = false := by
          simp only [decide_eq_false_iff_not]
          exact hne
        rw [hdec]
        exact ih hnd.2 hq2

theorem filterMap_send_eq_keyed (peers : List Peer) (saddr : TcpAddr) (failing : List Nat)
    (out : TOut) :
    peers.filterMap (fun p =>
        if p.2.1 ≠ saddr then
          (if p.1 ∈ failing then none else some (p.1, out))
        else none)
      = peers.filterMap (fun p =>
          (if p.2.1 ≠ saddr ∧ p.1 ∉ failing then some out else none).map (fun o => (p.1, o))) := by
  apply List.filterMap_congr
  intro p _
  by_cases h1 : p.2.1 ≠ saddr
  · by_cases h2 : p.1 ∈ failing
    · simp [h1, h2]
    · simp [h1, h2]
  · simp [h1]

theorem sentTo_send_block (peers : List Peer) (saddr : TcpAddr) (failing : List Nat)
    (out : TOut) (q : Peer) (hnd : (peers.map (fun p => p.1)).Nodup) (hq : q ∈ peers) :
    sentTo (peers.filterMap (fun p =>
        if p.2.1 ≠ saddr then
          (if p.1 ∈ failing then none else some (p.1, out))
        else none)) q.1
      = if q.2.1 ≠ saddr ∧ q.1 ∉ failing then [out] else [] := by
  rw [filterMap_send_eq_keyed, sentTo_keyed peers _ q hnd hq]
  by_cases hc : q.2.1 ≠ saddr ∧ q.1 ∉ failing
  · simp [hc]
  · simp [hc]

/-! ### C6: chat/message broadcast -/

/-- C6: a non-handshake message received from the connection at `saddr`
is attempted once to every peer whose address differs from the sender's;
a peer with the sender's address (the sender itself) receives nothing,
and delivery to a peer depends only on that peer's own send failing — not
on any other peer's failure. -/
theorem C6_broadcast_exactly_once
    (peers : List Peer) (saddr : TcpAddr) (failing : List Nat) (m : Msg) (q : Peer)
    (hnd : (peers.map (fun p => p.1)).Nodup) (hq : q ∈ peers) :
    sentTo (broadcastMsg peers saddr failing m) q.1
      = if q.2.1 ≠ saddr ∧ q.1 ∉ failing then [TOut.pmsg m] else [] := by
  unfold broadcastMsg
  exact sentTo_send_block peers saddr failing (TOut.pmsg m) q hnd hq

/-- Witness for C6: two registered connections; the non-sender,
non-failing peer receives the chat message exactly once. -/
theorem C6_witness :
    sentTo (broadcastMsg [(1, ("10.0.0.1", 50001), (none : PyObj)),
        (2, ("10.0.0.2", 50002), (none : PyObj))] ("10.0.0.1", 50001) [3]
        [("message", PyVal.str "hi")]) 2
      = if (("10.0.0.2", 50002) : TcpAddr) ≠ ("10.0.0.1", 50001) ∧ (2 : Nat) ∉ ([3] : List Nat)
        then [TOut.pmsg [("message", PyVal.str "hi")]] else [] :=
  C6_broadcast_exactly_once
    [(1, ("10.0.0.1", 50001), none), (2, ("10.0.0.2", 50002), none)]
    ("10.0.0.1", 50001) [3] [("message", PyVal.str "hi")]
    (2, ("10.0.0.2", 50002), none) (by decide) (by decide)

/-! ### C5: file-header plus byte-stream relay -/

theorem chunks1024_flatten_aux :
    ∀ (n : Nat) (b : Bytes), b.length ≤ n → (chunks1024 b).flatten = b := by
  intro n
  induction n with
  | zero =>
    intro b hb
    have : b = [] := List.length_eq_zero.mp (Nat.le_zero.mp hb)
    subst this
    rw [chunks1024]
    simp
  | succ n ih =>
    intro b hb
    by_cases hbe : b = []
    · subst hbe
      rw [chunks1024]
      simp
    · rw [chunks1024, if_neg hbe]
      simp only [List.flatten_cons]
      rw [ih (b.drop 1024) ?_]
      · exact List.take_append_drop 1024 b
      · have hpos : 0 < b.length := List.length_pos.mpr hbe
        simp only [List.length_drop]
        omega

theorem chunks1024_flatten (b : Bytes) : (chunks1024 b).flatten = b :=
  chunks1024_flatten_aux b.length b le_rfl

theorem fileLoop_spec (peers : List Peer) (saddr : TcpAddr) (failing : List Nat) :
    ∀ (S : Nat) (body rest : Bytes), body.length = S →
    fileLoop peers saddr failing (body ++ rest) S
      = ((chunks1024 body).flatMap (fun ch => peers.filterMap (fun p =>
            if p.2.1 ≠ saddr then
              (if p.1 ∈ failing then none else some (p.1, TOut.raw ch))
            else none)),
         rest) := by
  intro S
  induction S using Nat.strong_induction_on with
  | _ S ih =>
    intro body rest hlen
    by_cases hS : S = 0
    · subst hS
      have hb : body = [] := List.length_eq_zero.mp hlen
      subst hb
      rw [fileLoop, chunks1024]
      simp
    · have hbne : body ≠ [] := by
        intro hh
        rw [hh] at hlen
        simp at hlen
        omega
      have hcle : min 1024 S ≤ body.length := by omega
      have hslen : ¬ ((body ++ rest).length < min 1024 S) := by
        simp only [List.length_append]
        omega
      rw [fileLoop]
      simp only [if_neg hS, if_neg hslen]
      rw [List.take_append_of_le_length hcle, List.drop_append_of_le_length hcle]
      rw [ih (S - min 1024 S) (by omega) (body.drop (min 1024 S)) rest
        (by simp only [List.length_drop]; omega)]
      have ht2 : body.take (min 1024 S) = body.take 1024 := by
        rcases Nat.le_total 1024 S with hle | hle
        · have hmin : min 1024 S = 1024 := by omega
          rw [hmin]
        · have hmin : min 1024 S = S := by omega
          rw [hmin, ← hlen, List.take_length, List.take_of_length_le (by omega)]
      have hd2 : body.drop (min 1024 S) = body.drop 1024 := by
        rcases Nat.le_total 1024 S with hle | hle
        · have hmin : min 1024 S = 1024 := by omega
          rw [hmin]
        · have hmin : min 1024 S = S := by omega
          rw [hmin, ← hlen, List.drop_length, List.drop_eq_nil_of_le (by omega)]
      rw [ht2, hd2]
      have hcb : chunks1024 body = body.take 1024 :: chunks1024 (body.drop 1024) := by
        rw [chunks1024, if_neg hbne]
      rw [hcb]
      simp only [List.flatMap_cons]

/-- C5: on a file header of declared size `S`, the handler consumes
exactly `S` raw bytes from the sender's stream (everything after them is
left unread), and every peer whose address differs from the sender's and
whose sends do not fail receives the header message first and then raw
chunks whose concatenation is byte-for-byte the transferred body; peers
excluded from the header (the sender, failing peers) receive no chunks
either. -/
theorem C5_file_relay_exact
    (peers : List Peer) (saddr : TcpAddr) (failing : List Nat) (m : Msg)
    (body rest : Bytes) (S : Nat)
    (hty : alookup m "msg_type" = some (PyVal.str "file"))
    (hsz : alookup m "size" = some (PyVal.nat S))
    (hlen : body.length = S)
    (hnd : (peers.map (fun p => p.1)).Nodup) :
    ∃ evs, relayIteration peers saddr failing m (body ++ rest) = some (evs, rest) ∧
      (chunks1024 body).flatten = body ∧
      ∀ q ∈ peers, sentTo evs q.1
        = if q.2.1 ≠ saddr ∧ q.1 ∉ failing
          then TOut.pmsg m :: (chunks1024 body).map TOut.raw else [] := by
  refine ⟨broadcastMsg peers saddr failing m
    ++ (chunks1024 body).flatMap (fun ch => peers.filterMap (fun p =>
        if p.2.1 ≠ saddr then
          (if p.1 ∈ failing then none else some (p.1, TOut.raw ch))
        else none)), ?_, chunks1024_flatten body, ?_⟩
  · have hfl := fileLoop_spec peers saddr failing S body rest hlen
    unfold relayIteration
    rw [if_pos hty, hsz]
    simp only [hfl]
  · intro q hq
    rw [sentTo_append]
    have hhdr : sentTo (broadcastMsg peers saddr failing m) q.1
        = if q.2.1 ≠ saddr ∧ q.1 ∉ failing then [TOut.pmsg m] else [] := by
      unfold broadcastMsg
      exact sentTo_send_block peers saddr failing (TOut.pmsg m) q hnd hq
    have hchunks : ∀ chs : List Bytes,
        sentTo (chs.flatMap (fun ch => peers.filterMap (fun p =>
            if p.2.1 ≠ saddr then
              (if p.1 ∈ failing then none else some (p.1, TOut.raw ch))
            else none))) q.1
          = if q.2.1 ≠ saddr ∧ q.1 ∉ failing then chs.map TOut.raw else [] := by
      intro chs
      induction chs with
      | nil => by_cases hc : q.2.1 ≠ saddr ∧ q.1 ∉ failing <;> simp [hc, sentTo]
      | cons ch chs ihc =>
        rw [List.flatMap_cons, sentTo_append, ihc,
          sentTo_send_block peers saddr failing (TOut.raw ch) q hnd hq]
        by_cases hc : q.2.1 ≠ saddr ∧ q.1 ∉ failing <;> simp [hc]
    rw [hhdr, hchunks]
    by_cases hc : q.2.1 ≠ saddr ∧ q.1 ∉ failing <;> simp [hc]

/-- Witness for C5: a 3-byte file body relayed to a two-connection
meeting in one chunk, leaving the trailing stream untouched. -/
theorem C5_witness :
    ∃ evs, relayIteration
        [(1, ("10.0.0.1", 50001), (none : PyObj)), (2, ("10.0.0.2", 50002), (none : PyObj))]
        ("10.0.0.1", 50001) []
        [("msg_type", PyVal.str "file"), ("size", PyVal.nat 3)]
        ([7, 8, 9] ++ [99]) = some (evs, [99]) ∧
      (chunks1024 [7, 8, 9]).flatten = [7, 8, 9] ∧
      ∀ q ∈ [(1, ("10.0.0.1", 50001), (none : PyObj)), (2, ("10.0.0.2", 50002), (none : PyObj))],
        sentTo evs q.1
          = if q.2.1 ≠ ("10.0.0.1", 50001) ∧ q.1 ∉ ([] : List Nat)
            then TOut.pmsg [("msg_type", PyVal.str "file"), ("size", PyVal.nat 3)]
              :: (chunks1024 [7, 8, 9]).map TOut.raw else [] :=
  C5_file_relay_exact
    [(1, ("10.0.0.1", 50001), none), (2, ("10.0.0.2", 50002), none)]
    ("10.0.0.1", 50001) [] [("msg_type", PyVal.str "file"), ("size", PyVal.nat 3)]
    [7, 8, 9] [99] 3 (by decide) (by decide) (by decide) (by decide)

/-! ### Video relay lemmas (C7, C8) -/

theorem vSentTo_append (a b : List (Addr × VPacket)) (x : Addr) :
    vSentTo (a ++ b) x = vSentTo a x ++ vSentTo b x := by
  simp [vSentTo, List.filter_append]

theorem vSentTo_const (pkts : List VPacket) (p a : Addr) :
    vSentTo (pkts.map (fun q => (p, q))) a = if a = p then pkts else [] := by
  induction pkts with
  | nil => by_cases h : a = p <;> simp [vSentTo, h]
  | cons q t ih =>
    unfold vSentTo at ih ⊢
    by_cases h : a = p
    · subst h
      simp only [List.map_cons, List.filter_cons]
      rw [if_pos rfl] at ih
      simp [ih]
    · simp only [List.map_cons, List.filter_cons]
      rw [if_neg h] at ih
      have hdec : (decide ((p, q).1 = a)) = false := by
        simp only [decide_eq_false_iff_not]
        exact fun hh => h hh.symm
      rw [hdec]
      simp [ih, h]

theorem vSentTo_peers (peers : List Addr) (sender : Addr) (pkts : List VPacket) (a : Addr)
    (hnd : peers.Nodup) :
    vSentTo (peers.flatMap (fun peer =>
        if peer = sender then [] else pkts.map (fun q => (peer, q)))) a
      = if a ∈ peers ∧ a ≠ sender then pkts else [] := by
  induction peers with
  | nil =>
    rw [if_neg (fun hh : a ∈ ([] : List Addr) ∧ a ≠ sender => List.not_mem_nil a hh.1)]
    rfl
  | cons p t ih =>
    rcases List.nodup_cons.mp hnd with ⟨hp, hnd2⟩
    rw [List.flatMap_cons, vSentTo_append, ih hnd2]
    have hhead : vSentTo (if p = sender then [] else pkts.map (fun q => (p, q))) a
        = if p ≠ sender ∧ a = p then pkts else [] := by
      by_cases hps : p = sender
      · rw [if_pos hps, if_neg (fun hh : p ≠ sender ∧ a = p => hh.1 hps)]
        rfl
      · rw [if_neg hps, vSentTo_const]
        by_cases hap : a = p
        · rw [if_pos hap, if_pos ⟨hps, hap⟩]
        · rw [if_neg hap, if_neg (fun hh : p ≠ sender ∧ a = p => hap hh.2)]
    rw [hhead]
    by_cases hap : a = p
    · by_cases hps : p = sender
      · rw [if_neg (fun hh : p ≠ sender ∧ a = p => hh.1 hps)]
        have has : a = sender := hap.trans hps
        rw [if_neg (fun hh : a ∈ t ∧ a ≠ sender => hh.2 has),
            if_neg (fun hh : a ∈ p :: t ∧ a ≠ sender => hh.2 has)]
        rfl
      · rw [if_pos ⟨hps, hap⟩,
            if_neg (fun hh : a ∈ t ∧ a ≠ sender => hp (hap ▸ hh.1)),
            if_pos ⟨List.mem_cons.mpr (Or.inl hap), fun hh => hps (hap.symm.trans hh)⟩]
        simp
    · rw [if_neg (fun hh : p ≠ sender ∧ a = p => hap hh.2)]
      simp only [List.nil_append]
      by_cases hat : a ∈ t ∧ a ≠ sender
      · rw [if_pos hat, if_pos ⟨List.mem_cons_of_mem _ hat.1, hat.2⟩]
      · rw [if_neg hat, if_neg ?_]
        rintro ⟨hmem, hane⟩
        rcases List.mem_cons.mp hmem with rfl | hmem2
        · exact hap rfl
        · exact hat ⟨hmem2, hane⟩

theorem videoStep_sends_of_emit
    (reg : Registry) (rst : RState) (sender : Addr) (frameId total idx : Nat)
    (pl : Bytes) (now : ℚ) (tMs : Nat) (payload : Bytes)
    (hem : (fragStep rst sender frameId total idx pl now).2 = some payload) :
    (videoStep reg rst sender frameId total idx pl now tMs).2
      = forwardPayload reg sender payload tMs := by
  unfold videoStep
  simp only [hem]

theorem slices_flatten_aux (m : Nat) (hm : 0 < m) :
    ∀ (n : Nat) (buf : Bytes), buf.length ≤ n →
    ((List.range ((buf.length + m - 1) / m)).map
        (fun idx => (buf.drop (idx * m)).take m)).flatten = buf := by
  intro n
  induction n with
  | zero =>
    intro buf hb
    have hbe : buf = [] := List.length_eq_zero.mp (Nat.le_zero.mp hb)
    subst hbe
    have h0 : (List.length ([] : Bytes) + m - 1) / m = 0 :=
      Nat.div_eq_of_lt (by simp; omega)
    rw [h0]
    simp
  | succ n ih =>
    intro buf hb
    by_cases hbe : buf = []
    · subst hbe
      have h0 : (List.length ([] : Bytes) + m - 1) / m = 0 :=
        Nat.div_eq_of_lt (by simp; omega)
      rw [h0]
      simp
    · have hpos : 0 < buf.length := List.length_pos.mpr hbe
      by_cases hsmall : buf.length ≤ m
      · have h1 : (buf.length + m - 1) / m = 1 := by
          apply Nat.div_eq_of_lt_le <;> omega
        rw [h1, show List.range 1 = [0] from rfl]
        simp only [List.map_cons, List.map_nil, List.flatten_cons,
          List.flatten_nil, List.append_nil, Nat.zero_mul, List.drop_zero]
        exact List.take_of_length_le hsmall
      · push_neg at hsmall
        have hT : (buf.length + m - 1) / m = ((buf.drop m).length + m - 1) / m + 1 := by
          have hld : (buf.drop m).length = buf.length - m := List.length_drop m buf
          rw [hld]
          have : buf.length + m - 1 = (buf.length - m + m - 1) + m := by omega
          rw [this, Nat.add_div_right _ hm]
        rw [hT, List.range_succ_eq_map]
        simp only [List.map_cons, Nat.zero_mul, List.drop_zero, List.flatten_cons,
          List.map_map]
        have hfun : ((fun idx => (buf.drop (idx * m)).take m) ∘ Nat.succ)
            = fun idx => ((buf.drop m).drop (idx * m)).take m := by
          funext i
          simp only [Function.comp_apply]
          rw [List.drop_drop]
          rw [show m + i * m = i.succ * m from by
            rw [Nat.succ_mul]
            exact Nat.add_comm m (i * m)]
        rw [hfun]
        rw [ih (buf.drop m) (by simp only [List.length_drop]; omega)]
        exact List.take_append_drop m buf

theorem slices_flatten (m : Nat) (hm : 0 < m) (buf : Bytes) :
    ((List.range ((buf.length + m - 1) / m)).map
        (fun idx => (buf.drop (idx * m)).take m)).flatten = buf :=
  slices_flatten_aux m hm buf.length buf le_rfl

theorem videoStep_sends_of_none
    (reg : Registry) (rst : RState) (sender : Addr) (frameId total idx : Nat)
    (pl : Bytes) (now : ℚ) (tMs : Nat)
    (hem : (fragStep rst sender frameId total idx pl now).2 = none) :
    (videoStep reg rst sender frameId total idx pl now tMs).2 = [] := by
  unfold videoStep
  simp only [hem]

/-! ### C8: video relay targeting -/

/-- C8: once a payload is reconstructed, the listener resolves the owning
meeting exactly as the code does (`udp_to_meet` exact lookup with
IP-only fallback, `resolveMeet`); when a truthy meeting resolves, every
registered video address of that meeting other than the sender receives
precisely the re-fragmented copy and every sent datagram is addressed to
such a peer (so nothing is sent outside the meeting, nothing to the
sender, and nothing when the sender is alone); when no meeting resolves,
nothing is sent at all. -/
theorem C8_video_relay_targets
    (reg : Registry) (rst : RState) (sender : Addr) (frameId total idx : Nat)
    (pl : Bytes) (now : ℚ) (tMs : Nat) (payload : Bytes)
    (hem : (fragStep rst sender frameId total idx pl now).2 = some payload)
    (hnd : ((alookup reg.video (resolveMeet reg sender)).getD []).Nodup) :
    (pyTruthy (resolveMeet reg sender) = false →
      (videoStep reg rst sender frameId total idx pl now tMs).2 = []) ∧
    (∀ a : Addr,
      vSentTo (videoStep reg rst sender frameId total idx pl now tMs).2 a
        = if pyTruthy (resolveMeet reg sender) = true
              ∧ a ∈ (alookup reg.video (resolveMeet reg sender)).getD [] ∧ a ≠ sender
          then refragment tMs payload else []) ∧
    (∀ pkt ∈ (videoStep reg rst sender frameId total idx pl now tMs).2,
      pkt.1 ∈ (alookup reg.video (resolveMeet reg sender)).getD [] ∧ pkt.1 ≠ sender) := by
  have hsends := videoStep_sends_of_emit reg rst sender frameId total idx pl now tMs payload hem
  rw [hsends]
  simp only [forwardPayload]
  by_cases hm : pyTruthy (resolveMeet reg sender) = true
  · rw [if_pos hm]
    refine ⟨fun hf => absurd hm (by simp [hf]), ?_, ?_⟩
    · intro a
      rw [vSentTo_peers _ sender (refragment tMs payload) a hnd]
      by_cases hc : a ∈ (alookup reg.video (resolveMeet reg sender)).getD [] ∧ a ≠ sender
      · rw [if_pos hc, if_pos ⟨hm, hc⟩]
      · rw [if_neg hc, if_neg (fun hh => hc ⟨hh.2.1, hh.2.2⟩)]
    · intro pkt hpkt
      rcases List.mem_flatMap.mp hpkt with ⟨peer, hpeer, hp2⟩
      by_cases hps : peer = sender
      · rw [if_pos hps] at hp2
        simp at hp2
      · rw [if_neg hps] at hp2
        rcases List.mem_map.mp hp2 with ⟨q, hq, hpq⟩
        subst hpq
        exact ⟨hpeer, hps⟩
  · rw [if_neg hm]
    refine ⟨fun _ => rfl, ?_, ?_⟩
    · intro a
      rw [if_neg (fun hh => hm hh.1)]
      rfl
    · intro pkt hpkt
      simp at hpkt

/-- Witness for C8: a single-fragment frame from `sA` completes at once
and is relayed in meeting `"m"` of `c7reg`. -/
theorem C8_witness :
    (pyTruthy (resolveMeet c7reg sA) = false →
      (videoStep c7reg [] sA 9 1 0 [5] 0 1000).2 = []) ∧
    (∀ a : Addr,
      vSentTo (videoStep c7reg [] sA 9 1 0 [5] 0 1000).2 a
        = if pyTruthy (resolveMeet c7reg sA) = true
              ∧ a ∈ (alookup c7reg.video (resolveMeet c7reg sA)).getD [] ∧ a ≠ sA
          then refragment 1000 [5] else []) ∧
    (∀ pkt ∈ (videoStep c7reg [] sA 9 1 0 [5] 0 1000).2,
      pkt.1 ∈ (alookup c7reg.video (resolveMeet c7reg sA)).getD [] ∧ pkt.1 ≠ sA) :=
  C8_video_relay_targets c7reg [] sA 9 1 0 [5] 0 1000 [5] (by decide) (by decide)

/-! ### C7: re-fragmentation -/

/-- C7 counterexample: a completed inbound frame with frame id 77,
relayed at a millisecond clock reading of 77, is sent out with outbound
frame id 77 — equal to the inbound frame id, refuting "is not the
inbound frame id". -/
theorem C7_counterexample :
    (videoStep c7reg [] sA 77 1 0 [1, 2, 3] 0 77).2 = [(sB, (77, 1, 0, [1, 2, 3]))] := by
  decide

/-- C7 (amended): re-fragmentation preserves the reconstructed bytes —
the outbound fragment payloads concatenated in index order are exactly
the reconstructed payload, only header framing changes — and every
outbound datagram's frame id equals `tMs mod 2^32`, computed from the
millisecond clock alone; in particular it does not depend on the inbound
frame id (which appears nowhere in the outbound header computation),
though it may numerically coincide with it. -/
theorem C7_refragment_bytes_and_time_id (tMs : Nat) (payload : Bytes) :
    ((refragment tMs payload).map (fun q => q.2.2.2)).flatten = payload ∧
    (∀ q ∈ refragment tMs payload, q.1 = tMs % 4294967296) ∧
    (∀ (reg : Registry) (rst : RState) (sender : Addr) (frameId total idx : Nat)
        (pl : Bytes) (now : ℚ) (pkt : Addr × VPacket),
      pkt ∈ (videoStep reg rst sender frameId total idx pl now tMs).2 →
        pkt.2.1 = tMs % 4294967296) := by
  have hids : ∀ (pl2 : Bytes) (q : VPacket), q ∈ refragment tMs pl2 → q.1 = tMs % 4294967296 := by
    intro pl2 q hq
    unfold refragment at hq
    rcases List.mem_map.mp hq with ⟨idx, _, hqe⟩
    subst hqe
    rfl
  refine ⟨?_, fun q hq => hids payload q hq, ?_⟩
  · unfold refragment
    rw [List.map_map]
    have hcomp : ((fun q : VPacket => q.2.2.2)
          ∘ (fun idx => (tMs % 4294967296, (payload.length + MAX_UDP_PAYLOAD - 1) / MAX_UDP_PAYLOAD,
              idx, (payload.drop (idx * MAX_UDP_PAYLOAD)).take MAX_UDP_PAYLOAD)))
        = fun idx => (payload.drop (idx * MAX_UDP_PAYLOAD)).take MAX_UDP_PAYLOAD := by
      funext idx
      rfl
    rw [hcomp]
    exact slices_flatten MAX_UDP_PAYLOAD (by decide) payload
  · intro reg rst sender frameId total idx pl now pkt hpkt
    cases hfs : (fragStep rst sender frameId total idx pl now).2 with
    | none =>
      rw [videoStep_sends_of_none reg rst sender frameId total idx pl now tMs hfs] at hpkt
      simp at hpkt
    | some payload2 =>
      rw [videoStep_sends_of_emit reg rst sender frameId total idx pl now tMs payload2 hfs] at hpkt
      simp only [forwardPayload] at hpkt
      by_cases hm : pyTruthy (resolveMeet reg sender) = true
      · rw [if_pos hm] at hpkt
        rcases List.mem_flatMap.mp hpkt with ⟨peer, hpeer, hp2⟩
        by_cases hps : peer = sender
        · rw [if_pos hps] at hp2
          simp at hp2
        · rw [if_neg hps] at hp2
          rcases List.mem_map.mp hp2 with ⟨q, hq, hpq⟩
          subst hpq
          exact hids payload2 q hq
      · rw [if_neg hm] at hpkt
        simp at hpkt

/-! ### C1: order-independent reassembly -/

theorem any_key_false_of_not_mem {α β : Type} [DecidableEq α] {l : List (α × β)} {k : α}
    (h : k ∉ l.map Prod.fst) : l.any (fun p => decide (p.1 = k)) = false := by
  have hnot : ¬ (l.any (fun p => decide (p.1 = k)) = true) := by
    rw [List.any_eq_true]
    rintro ⟨p, hp, hpk⟩
    simp only [decide_eq_true_eq] at hpk
    exact h (List.mem_map.mpr ⟨p, hp, hpk⟩)
  cases hx : l.any (fun p => decide (p.1 = k))
  · rfl
  · exact absurd hx hnot

theorem alookup_of_mem_nodup {α β : Type} [DecidableEq α] {l : List (α × β)}
    (hnd : (l.map Prod.fst).Nodup) {k : α} {v : β} (hm : (k, v) ∈ l) :
    alookup l k = some v := by
  induction l with
  | nil => cases hm
  | cons p t ih =>
    simp only [List.map_cons, List.nodup_cons] at hnd
    rcases List.mem_cons.mp hm with rfl | hm2
    · simp [alookup]
    · have hpk : p.1 ≠ k := by
        intro hh
        apply hnd.1
        rw [hh]
        exact List.mem_map.mpr ⟨(k, v), hm2, rfl⟩
      simp only [alookup, if_neg hpk]
      exact ih hnd.2 hm2

theorem collectFrom_all (parts : List (Nat × Bytes)) :
    ∀ (l : List Bytes) (i : Nat),
      (∀ (j : Nat) (hj : j < l.length), alookup parts (i + j) = some (l.get ⟨j, hj⟩)) →
      collectFrom parts i l.length = some l := by
  intro l
  induction l with
  | nil => intro i _; rfl
  | cons x xs ih =>
    intro i h
    have h0 : alookup parts i = some x := by
      have := h 0 (by simp)
      simpa using this
    have hrest : ∀ (j : Nat) (hj : j < xs.length),
        alookup parts (i + 1 + j) = some (xs.get ⟨j, hj⟩) := by
      intro j hj
      have hh := h (j + 1) (by simp only [List.length_cons]; omega)
      rw [show i + (j + 1) = i + 1 + j from by omega] at hh
      simpa using hh
    have hx := ih (i + 1) hrest
    show collectFrom parts i (xs.length + 1) = some (x :: xs)
    simp only [collectFrom, h0, hx]

theorem fragStep_empty (s : Addr) (fid N i : Nat) (b : Bytes) (t : ℚ) :
    fragStep [] s fid N i b t
      = if 1 = N then
          (match collectFrom [(i, b)] 0 N with
           | some ps => (([] : RState), some ps.flatten)
           | none => ([((s, fid), ⟨[(i, b)], N, t⟩)], none))
        else ([((s, fid), ⟨[(i, b)], N, t⟩)], none) := by
  have h1 : aset ([] : List (Nat × Bytes)) i b = [(i, b)] := by simp [aset]
  have h3 : aset ([] : RState) ((s, fid)) ⟨[(i, b)], N, t⟩
      = [((s, fid), ⟨[(i, b)], N, t⟩)] := by simp [aset]
  unfold fragStep
  simp only [alookup, h1, List.length_cons, List.length_nil, Nat.zero_add]
  split
  · split <;> simp [adel, h3]
  · rw [h3]

theorem fragStep_single (s : Addr) (fid N : Nat) (done : List (Nat × Bytes)) (ts0 t : ℚ)
    (i : Nat) (b : Bytes)
    (hfresh : done.any (fun p => decide (p.1 = i)) = false) :
    fragStep [((s, fid), ⟨done, N, ts0⟩)] s fid N i b t
      = if done.length + 1 = N then
          (match collectFrom (done ++ [(i, b)]) 0 N with
           | some ps => (([] : RState), some ps.flatten)
           | none => ([((s, fid), ⟨done ++ [(i, b)], N, t⟩)], none))
        else ([((s, fid), ⟨done ++ [(i, b)], N, t⟩)], none) := by
  have haset : aset done i b = done ++ [(i, b)] := aset_absent done i b hfresh
  have hlook : alookup [((s, fid), (⟨done, N, ts0⟩ : Entry))] ((s, fid)) = some ⟨done, N, ts0⟩ := by
    simp [alookup]
  have hadel : adel [((s, fid), (⟨done, N, ts0⟩ : Entry))] ((s, fid)) = [] := by
    simp [adel]
  have hset : aset [((s, fid), (⟨done, N, ts0⟩ : Entry))] ((s, fid))
      ⟨done ++ [(i, b)], N, t⟩ = [((s, fid), ⟨done ++ [(i, b)], N, t⟩)] := by
    simp [aset]
  unfold fragStep
  simp only [hlook, haset, List.length_append, List.length_cons, List.length_nil, Nat.zero_add]
  split
  · split <;> simp [hadel, hset]
  · rw [hset]

theorem runR_perm_loop (s : Addr) (fid : Nat) (plist : List Bytes) :
    ∀ (rest done : List (Nat × Bytes)) (times : List ℚ) (ts0 : ℚ),
      rest ≠ [] → times.length = rest.length →
      (done ++ rest).Perm plist.enum →
      runR (if done = [] then [] else [((s, fid), ⟨done, plist.length, ts0⟩)])
        (mkFragEvs s fid plist.length rest times)
        = ([], [((s, fid), plist.flatten)]) := by
  intro rest
  induction rest with
  | nil =>
    intro done times ts0 hne
    exact absurd rfl hne
  | cons ib rest' ih =>
    intro done times ts0 _ hlen hperm
    obtain ⟨i, b⟩ := ib
    cases times with
    | nil => simp at hlen
    | cons t times' =>
      have hlen' : times'.length = rest'.length := by simpa using hlen
      have hnd : ((done ++ (i, b) :: rest').map Prod.fst).Nodup := by
        have hp := hperm.map Prod.fst
        rw [List.enum_map_fst] at hp
        exact hp.nodup_iff.mpr (List.nodup_range _)
      have hifresh : i ∉ done.map Prod.fst := by
        rw [List.map_append] at hnd
        have hdisj := List.disjoint_of_nodup_append hnd
        intro hmem
        exact hdisj hmem (by simp)
      have hNlen : done.length + (rest'.length + 1) = plist.length := by
        have hl := hperm.length_eq
        simp only [List.length_append, List.length_cons, List.enum_length] at hl
        omega
      have hpoint_all : ∀ (full : List (Nat × Bytes)), full.Perm plist.enum →
          ((full.map Prod.fst).Nodup) →
          collectFrom full 0 plist.length = some plist := by
        intro full hfp hfnd
        apply collectFrom_all full plist 0
        intro j hj
        have hje : j < plist.enum.length := by
          rw [List.enum_length]
          exact hj
        have hmem : (j, plist.get ⟨j, hj⟩) ∈ plist.enum :=
          (List.getElem_enum plist j hje) ▸ List.getElem_mem hje
        have hmem2 : (j, plist.get ⟨j, hj⟩) ∈ full := hfp.mem_iff.mpr hmem
        rw [Nat.zero_add]
        exact alookup_of_mem_nodup hfnd hmem2
      simp only [mkFragEvs, List.zipWith_cons_cons, runR]
      by_cases hd : done = []
      · subst hd
        rw [if_pos rfl, fragStep_empty]
        by_cases hrest : rest' = []
        · subst hrest
          have htimes' : times' = [] := List.length_eq_zero.mp (by simpa using hlen')
          subst htimes'
          have hN : plist.length = 1 := by simpa using hNlen.symm
          rw [if_pos hN.symm]
          have hcoll : collectFrom [(i, b)] 0 plist.length = some plist := by
            apply hpoint_all
            · simpa using hperm
            · simpa using hnd
          rw [hcoll]
          simp [mkFragEvs, runR]
        · have hne1 : ¬ (1 = plist.length) := by
            have := List.length_pos.mpr hrest
            omega
          rw [if_neg hne1]
          have hih := ih [(i, b)] times' t hrest hlen' (by simpa using hperm)
          rw [if_neg (by simp)] at hih
          simp only [mkFragEvs] at hih
          simp only [hih]
          simp
      · rw [if_neg hd, fragStep_single s fid plist.length done ts0 t i b
          (any_key_false_of_not_mem hifresh)]
        by_cases hrest : rest' = []
        · subst hrest
          have htimes' : times' = [] := List.length_eq_zero.mp (by simpa using hlen')
          subst htimes'
          have hN : done.length + 1 = plist.length := by simpa using hNlen
          rw [if_pos hN]
          have hperm' : (done ++ [(i, b)]).Perm plist.enum := hperm
          have hcoll : collectFrom (done ++ [(i, b)]) 0 plist.length = some plist := by
            apply hpoint_all
            · exact hperm'
            · exact hnd
          rw [hcoll]
          simp [mkFragEvs, runR]
        · have hne1 : ¬ (done.length + 1 = plist.length) := by
            have := List.length_pos.mpr hrest
            omega
          rw [if_neg hne1]
          rw [List.append_cons] at hperm
          have hih := ih (done ++ [(i, b)]) times' t hrest hlen' hperm
          rw [if_neg (by simp)] at hih
          simp only [mkFragEvs] at hih
          simp only [hih]
          simp

/-- C1: a logical payload split into `N` fragments (any split `plist`,
indices `0..N-1` with declared total `N` on every datagram), delivered to
the video listener in any order (`arr` is any permutation of the indexed
fragments, with arbitrary per-arrival timestamps), is reassembled, on
receipt of the last fragment, into output byte-identical to the original
pre-fragmentation buffer — and exactly once, with the buffer removed
afterwards. -/
theorem C1_reassembly_order_independent
    (plist : List Bytes) (s : Addr) (fid : Nat) (arr : List (Nat × Bytes)) (times : List ℚ)
    (hne : plist ≠ []) (hperm : arr.Perm plist.enum) (hlen : times.length = arr.length) :
    runR [] (mkFragEvs s fid plist.length arr times) = ([], [((s, fid), plist.flatten)]) := by
  have harr : arr ≠ [] := by
    intro hh
    subst hh
    have := hperm.length_eq
    simp only [List.length_nil, List.enum_length] at this
    exact hne (List.length_eq_zero.mp this.symm)
  have := runR_perm_loop s fid plist arr [] times 0 harr hlen (by simpa using hperm)
  rw [if_pos rfl] at this
  exact this

/-- Witness for C1: a 2-fragment payload delivered out of order (index 1
then index 0) reassembles to the original concatenation. -/
theorem C1_witness :
    runR [] (mkFragEvs sA 7 ([[10], [20]] : List Bytes).length [(1, [20]), (0, [10])] [0, 1])
      = ([], [((sA, 7), ([[10], [20]] : List Bytes).flatten)]) :=
  C1_reassembly_order_independent [[10], [20]] sA 7 [(1, [20]), (0, [10])] [0, 1]
    (by decide) (by decide) (by decide)

/-! ### C2: TTL purge -/

theorem alookup_adel_ne {α β : Type} [DecidableEq α] (l : List (α × β)) (k k' : α)
    (h : k' ≠ k) : alookup (adel l k) k' = alookup l k' := by
  induction l with
  | nil => rfl
  | cons p t ih =>
    by_cases hp : p.1 = k
    · rw [show adel (p :: t) k = adel t k from by simp [adel, hp]]
      rw [ih]
      simp only [alookup]
      rw [if_neg (fun hh : p.1 = k' => h (hh ▸ hp ▸ rfl))]
    · rw [show adel (p :: t) k = p :: adel t k from by simp [adel, hp]]
      by_cases hq : p.1 = k'
      · simp [alookup, hq]
      · simp [alookup, hq, ih]

theorem alookup_filter_none_of_none {α β : Type} [DecidableEq α] (l : List (α × β))
    (q : α × β → Bool) (k : α) (h : alookup l k = none) :
    alookup (l.filter q) k = none := by
  induction l with
  | nil => rfl
  | cons p t ih =>
    by_cases hp : p.1 = k
    · simp only [alookup, if_pos hp] at h
      cases h
    · simp only [alookup, if_neg hp] at h
      rw [List.filter_cons]
      cases hqp : q p
      · simpa using ih h
      · simp only [if_pos rfl]
        simp only [alookup, if_neg hp]
        exact ih h

theorem sweep_deletes (st : RState) (k : RKey) (e : Entry) (now : ℚ)
    (hnd : (st.map Prod.fst).Nodup) (hk : alookup st k = some e)
    (hstale : now - e.ts > FRAME_TTL) :
    alookup (sweepStep st now) k = none := by
  induction st with
  | nil => cases hk
  | cons p t ih =>
    simp only [List.map_cons, List.nodup_cons] at hnd
    by_cases hp : p.1 = k
    · simp only [alookup, if_pos hp] at hk
      injection hk with hke
      have hdrop : (!(decide (now - p.2.ts > FRAME_TTL))) = false := by
        rw [hke]
        simpa using hstale
      unfold sweepStep
      rw [List.filter_cons, hdrop]
      simp only [Bool.false_eq_true, if_neg (by simp : ¬ (false = true))]
      have hnone : alookup t k = none := by
        apply alookup_none_of_any_false
        apply any_key_false_of_not_mem
        rw [← hp]
        exact hnd.1
      exact alookup_filter_none_of_none t _ k hnone
    · simp only [alookup, if_neg hp] at hk
      unfold sweepStep at ih ⊢
      rw [List.filter_cons]
      cases hq : (!(decide (now - p.2.ts > FRAME_TTL)))
      · simpa using ih hnd.2 hk
      · simp only [if_pos rfl]
        simp only [alookup, if_neg hp]
        exact ih hnd.2 hk

theorem fragStep_other_key (st : RState) (s : Addr) (f tot i : Nat) (pl : Bytes) (t : ℚ)
    (k : RKey) (hne : k ≠ (s, f)) :
    alookup (fragStep st s f tot i pl t).1 k = alookup st k := by
  simp only [fragStep]
  split
  · split
    · show alookup (adel st (s, f)) k = alookup st k
      exact alookup_adel_ne st (s, f) k hne
    · show alookup (aset st (s, f) _) k = alookup st k
      exact alookup_aset_ne st (s, f) k _ hne
  · show alookup (aset st (s, f) _) k = alookup st k
    exact alookup_aset_ne st (s, f) k _ hne

theorem runR_no_key (k : RKey) : ∀ (evs : List REv) (st : RState),
    alookup st k = none →
    (∀ (s : Addr) (f tot i : Nat) (pl : Bytes) (t : ℚ),
      REv.frag s f tot i pl t ∈ evs → (s, f) ≠ k) →
    alookup (runR st evs).1 k = none ∧ ∀ b : Bytes, (k, b) ∉ (runR st evs).2 := by
  intro evs
  induction evs with
  | nil =>
    intro st h _
    exact ⟨h, by simp [runR]⟩
  | cons ev rest ih =>
    intro st h hno
    cases ev with
    | sweep t2 =>
      simp only [runR]
      apply ih
      · exact alookup_filter_none_of_none st _ k h
      · intro s f tot i pl t hmem
        exact hno s f tot i pl t (List.mem_cons_of_mem _ hmem)
    | frag s f tot i pl t =>
      have hne : (s, f) ≠ k := hno s f tot i pl t (List.mem_cons_self _ _)
      have hpres : alookup (fragStep st s f tot i pl t).1 k = alookup st k :=
        fragStep_other_key st s f tot i pl t k (fun hh => hne hh.symm)
      have hih := ih (fragStep st s f tot i pl t).1 (by rw [hpres]; exact h)
        (fun s2 f2 tot2 i2 pl2 t2 hmem => hno s2 f2 tot2 i2 pl2 t2 (List.mem_cons_of_mem _ hmem))
      simp only [runR]
      refine ⟨hih.1, ?_⟩
      intro b hb
      rcases List.mem_append.mp hb with hb2 | hb2
      · cases hr : (fragStep st s f tot i pl t).2 with
        | none =>
          rw [hr] at hb2
          simp at hb2
        | some bb =>
          rw [hr] at hb2
          simp only [List.mem_singleton] at hb2
          injection hb2 with hk2 _
          exact hne hk2.symm
      · exact hih.2 b hb2

/-- C2 counterexample: key `(sA, 7)` declares 3 fragments but receives
only two of them (at `t = 0` and `t = 2`) within 2 seconds of the
buffer's creation, while the sweeper runs every second; the buffer is
never deleted (the TTL is measured from the last-touched timestamp, not
from creation) and the payload IS emitted when the third fragment lands
at `t = 4`. -/
theorem C2_counterexample :
    alookup (runR [] c2evsEarly).1 ((sA, 7)) = some ⟨[(0, [10]), (1, [20])], 3, 2⟩ ∧
    (runR [] c2evs).2 = [((sA, 7), [10, 20, 30])] := by
  constructor <;>
    norm_num [c2evs, c2evsEarly, runR, fragStep, sweepStep, alookup, aset, adel,
      collectFrom, FRAME_TTL, sA]

/-- C2 (amended): the TTL window is measured from the buffer's
last-touched timestamp (refreshed on every fragment), not from its
creation: any sweep running more than `FRAME_TTL` after the last
fragment arrival deletes the buffer, and once deleted — provided no
further fragments arrive for that key — the key never reappears in the
reassembly map and no payload is ever emitted for it. -/
theorem C2_sweeper_purges_stale_buffers
    (st : RState) (k : RKey) (e : Entry) (tq : ℚ) (evs : List REv)
    (hnd : (st.map Prod.fst).Nodup)
    (hk : alookup st k = some e)
    (hstale : tq - e.ts > FRAME_TTL)
    (hnofrag : ∀ (s : Addr) (f tot i : Nat) (pl : Bytes) (t : ℚ),
      REv.frag s f tot i pl t ∈ evs → (s, f) ≠ k) :
    alookup (sweepStep st tq) k = none ∧
    alookup (runR (sweepStep st tq) evs).1 k = none ∧
    ∀ b : Bytes, (k, b) ∉ (runR (sweepStep st tq) evs).2 := by
  have h1 := sweep_deletes st k e tq hnd hk hstale
  have h2 := runR_no_key k evs (sweepStep st tq) h1 hnofrag
  exact ⟨h1, h2.1, h2.2⟩

/-- Witness for C2 (amended): a stale single-fragment buffer swept at
`t = 3` is gone and stays gone through a later sweep. -/
theorem C2_witness :
    alookup (sweepStep [((sA, 7), ⟨[(0, [10])], 3, 0⟩)] 3) ((sA, 7)) = none ∧
    alookup (runR (sweepStep [((sA, 7), ⟨[(0, [10])], 3, 0⟩)] 3) [REv.sweep 4]).1 ((sA, 7)) = none ∧
    ∀ b : Bytes, ((sA, 7), b) ∉ (runR (sweepStep [((sA, 7), ⟨[(0, [10])], 3, 0⟩)] 3) [REv.sweep 4]).2 :=
  C2_sweeper_purges_stale_buffers [((sA, 7), ⟨[(0, [10])], 3, 0⟩)] ((sA, 7)) ⟨[(0, [10])], 3, 0⟩
    3 [REv.sweep 4] (by decide) (by decide) (by norm_num [FRAME_TTL])
    (by intro s f tot i pl t hmem; simp at hmem)

/-! ### C4: deregistration and the address-index invariant -/

theorem alookup_adel_self {α β : Type} [DecidableEq α] (l : List (α × β)) (k : α) :
    alookup (adel l k) k = none := by
  induction l with
  | nil => rfl
  | cons p t ih =>
    by_cases hp : p.1 = k
    · rw [show adel (p :: t) k = adel t k from by simp [adel, hp]]
      exact ih
    · rw [show adel (p :: t) k = p :: adel t k from by simp [adel, hp]]
      simp only [alookup, if_neg hp]
      exact ih

theorem mem_aset_elim {α β : Type} [DecidableEq α] {l : List (α × β)} {k : α} {v : β}
    {kv : α × β} (h : kv ∈ aset l k v) : kv = (k, v) ∨ (kv ∈ l ∧ kv.1 ≠ k) := by
  unfold aset at h
  split at h
  · rcases List.mem_map.mp h with ⟨p, hp, hpe⟩
    by_cases hpk : p.1 = k
    · rw [if_pos hpk] at hpe
      exact Or.inl hpe.symm
    · rw [if_neg hpk] at hpe
      subst hpe
      exact Or.inr ⟨hp, hpk⟩
  · rename_i hany
    rcases List.mem_append.mp h with hp | hp
    · refine Or.inr ⟨hp, fun hh => hany ?_⟩
      exact List.any_eq_true.mpr ⟨kv, hp, by simp [hh]⟩
    · exact Or.inl (List.mem_singleton.mp hp)

theorem deregGeneral_fields (st : Registry) (m : PyObj) (caddr : TcpAddr) :
    (deregGeneral st m caddr).video = st.video ∧
    (deregGeneral st m caddr).audio = st.audio ∧
    (deregGeneral st m caddr).toMeet = st.toMeet ∧
    (deregGeneral st m caddr).toUser = st.toUser := by
  rcases h : alookup st.general m with _ | l
  · simp [deregGeneral, h]
  · simp only [deregGeneral, h]
    refine ⟨?_, ?_, ?_, ?_⟩ <;> (split <;> rfl)

theorem deregVideo_fields (st : Registry) (m : PyObj) (ip : String) :
    (deregVideo st m ip).general = st.general ∧
    (deregVideo st m ip).audio = st.audio ∧
    (deregVideo st m ip).toMeet = st.toMeet ∧
    (deregVideo st m ip).toUser = st.toUser := by
  rcases h : alookup st.video m with _ | addrs
  · simp [deregVideo, h]
  · simp only [deregVideo, h]
    refine ⟨?_, ?_, ?_, ?_⟩ <;> (split <;> rfl)

theorem deregAudio_fields (st : Registry) (m : PyObj) (ip : String) :
    (deregAudio st m ip).general = st.general ∧
    (deregAudio st m ip).video = st.video ∧
    (deregAudio st m ip).toMeet = st.toMeet ∧
    (deregAudio st m ip).toUser = st.toUser := by
  rcases h : alookup st.audio m with _ | addrs
  · simp [deregAudio, h]
  · simp only [deregAudio, h]
    refine ⟨?_, ?_, ?_, ?_⟩ <;> (split <;> rfl)

theorem deregUdp_fields (st : Registry) (ip : String) :
    (deregUdp st ip).general = st.general ∧
    (deregUdp st ip).video = st.video ∧
    (deregUdp st ip).audio = st.audio ∧
    (deregUdp st ip).toMeet = st.toMeet.filter (fun kv => decide (kv.1.1 ≠ ip)) :=
  ⟨rfl, rfl, rfl, rfl⟩

theorem alookup_filter_ip_none (l : List (Addr × PyObj)) (ip : String) (a : Addr)
    (ha : a.1 = ip) : alookup (l.filter (fun kv => decide (kv.1.1 ≠ ip))) a = none := by
  induction l with
  | nil => rfl
  | cons p t ih =>
    rw [List.filter_cons]
    cases hq : decide (p.1.1 ≠ ip)
    · simpa using ih
    · simp only [if_pos rfl]
      simp only [decide_eq_true_eq] at hq
      have hpa : p.1 ≠ a := fun hh => hq (by rw [hh, ha])
      simp only [alookup, if_neg hpa]
      exact ih

theorem deregGeneral_no_addr (st : Registry) (m : PyObj) (caddr : TcpAddr) :
    ∀ x ∈ (alookup (deregGeneral st m caddr).general m).getD [], x.2.1 ≠ caddr := by
  rcases h : alookup st.general m with _ | l
  · intro x hx
    simp only [deregGeneral, h] at hx
    simp [h] at hx
  · by_cases h2 : List.filter (fun x => decide (x.2.1 ≠ caddr)) l = []
    · intro x hx
      simp only [deregGeneral, h, if_pos h2] at hx
      rw [alookup_adel_self] at hx
      cases hx
    · intro x hx
      simp only [deregGeneral, h, if_neg h2] at hx
      rw [alookup_aset_self] at hx
      simp only [Option.getD_some] at hx
      simpa using (List.mem_filter.mp hx).2

theorem deregVideo_no_ip (st : Registry) (m : PyObj) (ip : String) :
    ∀ a ∈ (alookup (deregVideo st m ip).video m).getD [], a.1 ≠ ip := by
  rcases h : alookup st.video m with _ | addrs
  · intro a ha
    simp only [deregVideo, h] at ha
    simp [h] at ha
  · by_cases h2 : List.filter (fun a => decide (a.1 ≠ ip)) addrs = []
    · intro a ha
      simp only [deregVideo, h, if_pos h2] at ha
      rw [alookup_adel_self] at ha
      cases ha
    · intro a ha
      simp only [deregVideo, h, if_neg h2] at ha
      rw [alookup_aset_self] at ha
      simp only [Option.getD_some] at ha
      simpa using (List.mem_filter.mp ha).2

theorem deregAudio_no_ip (st : Registry) (m : PyObj) (ip : String) :
    ∀ a ∈ (alookup (deregAudio st m ip).audio m).getD [], a.1 ≠ ip := by
  rcases h : alookup st.audio m with _ | addrs
  · intro a ha
    simp only [deregAudio, h] at ha
    simp [h] at ha
  · by_cases h2 : List.filter (fun a => decide (a.1 ≠ ip)) addrs = []
    · intro a ha
      simp only [deregAudio, h, if_pos h2] at ha
      rw [alookup_adel_self] at ha
      cases ha
    · intro a ha
      simp only [deregAudio, h, if_neg h2] at ha
      rw [alookup_aset_self] at ha
      simp only [Option.getD_some] at ha
      simpa using (List.mem_filter.mp ha).2

theorem handshake_vt_shape (st : Registry) (c : Nat) (a : TcpAddr) (m : Msg) (hm : m ≠ []) :
    ((handshakeStep st c a (some m)).1.toMeet = st.toMeet
      ∧ (handshakeStep st c a (some m)).1.video = st.video)
    ∨ (∃ v : PyVal, alookup m "video_udp_port" = some v ∧
        (handshakeStep st c a (some m)).1.toMeet
          = aset st.toMeet (a.1, v) (alookup m "meet_id") ∧
        (handshakeStep st c a (some m)).1.video
          = aset st.video (alookup m "meet_id")
              (sadd ((alookup st.video (alookup m "meet_id")).getD []) (a.1, v))) := by
  simp only [handshakeStep]
  rw [if_neg hm]
  rcases hv : alookup m "video_udp_port" with _ | v
  · rcases ha : alookup m "audio_udp_port" with _ | w
    · simp only [hv, ha]
      left
      refine ⟨?_, ?_⟩ <;> (first | rfl | trivial | (split <;> first | rfl | trivial))
    · simp only [hv, ha]
      left
      refine ⟨?_, ?_⟩ <;> (first | rfl | trivial | (split <;> first | rfl | trivial))
  · rcases ha : alookup m "audio_udp_port" with _ | w
    · simp only [hv, ha]
      by_cases htr : v.truthy = true
      · rw [if_pos htr]
        right
        refine ⟨v, ?_, ?_, ?_⟩ <;> (first | rfl | trivial | (split <;> first | rfl | trivial))
      · rw [if_neg htr]
        left
        refine ⟨?_, ?_⟩ <;> (first | rfl | trivial | (split <;> first | rfl | trivial))
    · simp only [hv, ha]
      by_cases htr : v.truthy = true
      · rw [if_pos htr]
        right
        refine ⟨v, ?_, ?_, ?_⟩ <;> (first | rfl | trivial | (split <;> first | rfl | trivial))
      · rw [if_neg htr]
        left
        refine ⟨?_, ?_⟩ <;> (first | rfl | trivial | (split <;> first | rfl | trivial))

theorem forwardInv_handshake (st : Registry) (c : Nat) (a : TcpAddr) (info : Option Msg)
    (h : forwardInv st) : forwardInv (handshakeStep st c a info).1 := by
  cases info with
  | none => exact h
  | some m =>
    by_cases hm : m = []
    · subst hm
      intro kv hkv
      simp only [handshakeStep, if_pos rfl] at hkv ⊢
      exact h kv hkv
    · rcases handshake_vt_shape st c a m hm with ⟨ht, hv⟩ | ⟨v, _, ht, hv⟩
      · intro kv hkv
        rw [ht] at hkv
        rw [hv]
        exact h kv hkv
      · intro kv hkv
        rw [ht] at hkv
        rw [hv]
        rcases mem_aset_elim hkv with rfl | ⟨hmem, hne⟩
        · rw [alookup_aset_self]
          simp only [Option.getD_some]
          exact (mem_sadd _ _ _).mpr (Or.inr rfl)
        · have hold := h kv hmem
          by_cases hkm : kv.2 = alookup m "meet_id"
          · rw [hkm, alookup_aset_self]
            simp only [Option.getD_some]
            refine (mem_sadd _ _ _).mpr (Or.inl ?_)
            rw [hkm] at hold
            exact hold
          · rw [alookup_aset_ne _ _ _ _ hkm]
            exact hold

theorem forwardInv_dereg (st : Registry) (m : PyObj) (a : TcpAddr)
    (h : forwardInv st) : forwardInv (deregister st m a) := by
  unfold deregister
  by_cases hm : pyTruthy m = true
  · rw [if_pos hm]
    intro kv hkv
    have htm : (deregUdp (deregAudio (deregVideo (deregGeneral st m a) m a.1) m a.1) a.1).toMeet
        = st.toMeet.filter (fun kv => decide (kv.1.1 ≠ a.1)) := by
      rw [(deregUdp_fields _ _).2.2.2, (deregAudio_fields _ _ _).2.2.1,
        (deregVideo_fields _ _ _).2.2.1, (deregGeneral_fields _ _ _).2.2.1]
    have hvid : (deregUdp (deregAudio (deregVideo (deregGeneral st m a) m a.1) m a.1) a.1).video
        = (deregVideo (deregGeneral st m a) m a.1).video := by
      rw [(deregUdp_fields _ _).2.1, (deregAudio_fields _ _ _).2.1]
    rw [htm] at hkv
    rw [hvid]
    have hkv2 := List.mem_filter.mp hkv
    have hip : kv.1.1 ≠ a.1 := by simpa using hkv2.2
    have hold := h kv hkv2.1
    have hst1v : (deregGeneral st m a).video = st.video := (deregGeneral_fields _ _ _).1
    rcases hlv : alookup (deregGeneral st m a).video m with _ | addrs
    · have hsame : (deregVideo (deregGeneral st m a) m a.1).video
          = (deregGeneral st m a).video := by
        simp only [deregVideo, hlv]
      rw [hsame, hst1v]
      exact hold
    · by_cases h2 : List.filter (fun x => decide (x.1 ≠ a.1)) addrs = []
      · have hdel : (deregVideo (deregGeneral st m a) m a.1).video
            = adel (deregGeneral st m a).video m := by
          simp only [deregVideo, hlv, if_pos h2]
        rw [hdel, hst1v]
        by_cases hkm : kv.2 = m
        · exfalso
          rw [hkm] at hold
          rw [hst1v] at hlv
          rw [hlv] at hold
          simp only [Option.getD_some] at hold
          exact List.not_mem_nil kv.1
            (h2 ▸ List.mem_filter.mpr ⟨hold, by simpa using hip⟩)
        · rw [alookup_adel_ne _ _ _ hkm]
          exact hold
      · have hset : (deregVideo (deregGeneral st m a) m a.1).video
            = aset (deregGeneral st m a).video m
                (List.filter (fun x => decide (x.1 ≠ a.1)) addrs) := by
          simp only [deregVideo, hlv, if_neg h2]
        rw [hset, hst1v]
        by_cases hkm : kv.2 = m
        · rw [hkm, alookup_aset_self]
          simp only [Option.getD_some]
          rw [hkm] at hold
          rw [hst1v] at hlv
          rw [hlv] at hold
          simp only [Option.getD_some] at hold
          exact List.mem_filter.mpr ⟨hold, by simpa using hip⟩
        · rw [alookup_aset_ne _ _ _ _ hkm]
          exact hold
  · rw [if_neg hm]
    intro kv hkv
    rw [(deregGeneral_fields _ _ _).2.2.1] at hkv
    rw [(deregGeneral_fields _ _ _).1]
    exact h kv hkv

theorem reachable_forwardInv : ∀ st : Registry, Reachable st → forwardInv st := by
  intro st h
  induction h with
  | init =>
    intro kv hkv
    simp [emptyRegistry] at hkv
  | reg st2 c a2 info _ ih => exact forwardInv_handshake st2 c a2 info ih
  | dereg st2 m a2 _ ih => exact forwardInv_dereg st2 m a2 ih

theorem deregGeneral_deletes_empty (st : Registry) (m : PyObj) (caddr : TcpAddr)
    (l : List Peer) (hl : alookup st.general m = some l)
    (h2 : l.filter (fun x => decide (x.2.1 ≠ caddr)) = []) :
    alookup (deregGeneral st m caddr).general m = none := by
  simp only [deregGeneral, hl, if_pos h2]
  exact alookup_adel_self _ _

theorem deregVideo_deletes_empty (st : Registry) (m : PyObj) (ip : String)
    (addrs : List Addr) (hl : alookup st.video m = some addrs)
    (h2 : addrs.filter (fun x => decide (x.1 ≠ ip)) = []) :
    alookup (deregVideo st m ip).video m = none := by
  simp only [deregVideo, hl, if_pos h2]
  exact alookup_adel_self _ _

theorem deregAudio_deletes_empty (st : Registry) (m : PyObj) (ip : String)
    (addrs : List Addr) (hl : alookup st.audio m = some addrs)
    (h2 : addrs.filter (fun x => decide (x.1 ≠ ip)) = []) :
    alookup (deregAudio st m ip).audio m = none := by
  simp only [deregAudio, hl, if_pos h2]
  exact alookup_adel_self _ _

/-- C4 counterexample, in two parts.  First: two connections from the
same IP registered video ports in different meetings (`m1`, `m2`);
deregistering the `m1` connection pops every `udp_to_meet` key with that
IP, so the address `("10.0.0.1", 6000)` is still in meeting `m2`'s video
address set but no longer in the reverse index — the claimed "address in
the reverse index iff in some meeting's address set" equivalence fails
on a reachable state, and a lookup for a still-registered address
returns not found.  Second: a participant registered under meeting
`None` (which registration accepts); on deregistration `if meet_id:` is
falsy and the whole UDP cleanup is skipped, so its reverse-index entry
and video-set entry both survive — "removes its video and audio
addresses and all reverse address-to-meeting entries" fails there too. -/
theorem C4_counterexample :
    (("10.0.0.1", PyVal.nat 6000) ∈ (alookup c4st3.video (some (PyVal.str "m2"))).getD [] ∧
     alookup c4st3.toMeet ("10.0.0.1", PyVal.nat 6000) = none ∧
     Reachable c4st3) ∧
    (alookup c4stF2.toMeet ("10.0.0.3", PyVal.nat 7000) = some none ∧
     ("10.0.0.3", PyVal.nat 7000) ∈ (alookup c4stF2.video none).getD [] ∧
     Reachable c4stF2) := by
  refine ⟨⟨by decide, by decide, ?_⟩, ⟨by decide, by decide, ?_⟩⟩
  · exact Reachable.dereg _ _ _ (Reachable.reg _ _ _ _ (Reachable.reg _ _ _ _ Reachable.init))
  · exact Reachable.dereg _ _ _ (Reachable.reg _ _ _ _ Reachable.init)

/-- C4 (amended): deregistering a participant removes its connection's
entries from its meeting's participant list and deletes the list if it
becomes empty; for a truthy meeting id it also removes every same-IP
address from that meeting's video and audio sets (deleting a set that
becomes empty) and every same-IP key from the reverse index, so a
subsequent exact-address lookup for any address with the client's IP
returns not found — for a falsy meeting id (None/empty, which
registration permits) this UDP cleanup is skipped (second
counterexample).  The invariant the code preserves over all reachable
registry states is one-directional — every reverse-index entry maps an
address into that meeting's video address set — while the claimed
converse direction fails (first counterexample). -/
theorem C4_deregistration_cleanup
    (st : Registry) (m : PyObj) (caddr : TcpAddr) (hm : pyTruthy m = true) :
    (∀ x ∈ (alookup (deregister st m caddr).general m).getD [], x.2.1 ≠ caddr) ∧
    (∀ l : List Peer, alookup st.general m = some l →
      l.filter (fun x => decide (x.2.1 ≠ caddr)) = [] →
      alookup (deregister st m caddr).general m = none) ∧
    (∀ a ∈ (alookup (deregister st m caddr).video m).getD [], a.1 ≠ caddr.1) ∧
    (∀ addrs : List Addr, alookup st.video m = some addrs →
      addrs.filter (fun x => decide (x.1 ≠ caddr.1)) = [] →
      alookup (deregister st m caddr).video m = none) ∧
    (∀ a ∈ (alookup (deregister st m caddr).audio m).getD [], a.1 ≠ caddr.1) ∧
    (∀ addrs : List Addr, alookup st.audio m = some addrs →
      addrs.filter (fun x => decide (x.1 ≠ caddr.1)) = [] →
      alookup (deregister st m caddr).audio m = none) ∧
    (∀ a : Addr, a.1 = caddr.1 → alookup (deregister st m caddr).toMeet a = none) ∧
    (∀ st2 : Registry, Reachable st2 → forwardInv st2) := by
  have hd : deregister st m caddr
      = deregUdp (deregAudio (deregVideo (deregGeneral st m caddr) m caddr.1) m caddr.1)
          caddr.1 := by
    unfold deregister
    rw [if_pos hm]
  refine ⟨?_, ?_, ?_, ?_, ?_, ?_, ?_, reachable_forwardInv⟩
  · rw [hd, (deregUdp_fields _ _).1, (deregAudio_fields _ _ _).1, (deregVideo_fields _ _ _).1]
    exact deregGeneral_no_addr st m caddr
  · intro l hl h2
    rw [hd, (deregUdp_fields _ _).1, (deregAudio_fields _ _ _).1, (deregVideo_fields _ _ _).1]
    exact deregGeneral_deletes_empty st m caddr l hl h2
  · rw [hd, (deregUdp_fields _ _).2.1, (deregAudio_fields _ _ _).2.1]
    exact deregVideo_no_ip _ m caddr.1
  · intro addrs hl h2
    rw [hd, (deregUdp_fields _ _).2.1, (deregAudio_fields _ _ _).2.1]
    refine deregVideo_deletes_empty _ m caddr.1 addrs ?_ h2
    rw [(deregGeneral_fields _ _ _).1]
    exact hl
  · rw [hd, (deregUdp_fields _ _).2.2.1]
    exact deregAudio_no_ip _ m caddr.1
  · intro addrs hl h2
    rw [hd, (deregUdp_fields _ _).2.2.1]
    refine deregAudio_deletes_empty _ m caddr.1 addrs ?_ h2
    rw [(deregVideo_fields _ _ _).2.1, (deregGeneral_fields _ _ _).2.1]
    exact hl
  · intro a ha
    rw [hd, (deregUdp_fields _ _).2.2.2]
    exact alookup_filter_ip_none _ caddr.1 a ha

/-- Witness for C4 (amended): deregistering user A (meeting `m1`, IP
10.0.0.1) from the two-registration state `c4st2`. -/
theorem C4_witness :
    (∀ x ∈ (alookup (deregister c4st2 (some (PyVal.str "m1")) ("10.0.0.1", 1000)).general
        (some (PyVal.str "m1"))).getD [], x.2.1 ≠ ("10.0.0.1", 1000)) ∧
    (∀ l : List Peer, alookup c4st2.general (some (PyVal.str "m1")) = some l →
      l.filter (fun x => decide (x.2.1 ≠ ("10.0.0.1", 1000))) = [] →
      alookup (deregister c4st2 (some (PyVal.str "m1")) ("10.0.0.1", 1000)).general
        (some (PyVal.str "m1")) = none) ∧
    (∀ a ∈ (alookup (deregister c4st2 (some (PyVal.str "m1")) ("10.0.0.1", 1000)).video
        (some (PyVal.str "m1"))).getD [], a.1 ≠ "10.0.0.1") ∧
    (∀ addrs : List Addr, alookup c4st2.video (some (PyVal.str "m1")) = some addrs →
      addrs.filter (fun x => decide (x.1 ≠ "10.0.0.1")) = [] →
      alookup (deregister c4st2 (some (PyVal.str "m1")) ("10.0.0.1", 1000)).video
        (some (PyVal.str "m1")) = none) ∧
    (∀ a ∈ (alookup (deregister c4st2 (some (PyVal.str "m1")) ("10.0.0.1", 1000)).audio
        (some (PyVal.str "m1"))).getD [], a.1 ≠ "10.0.0.1") ∧
    (∀ addrs : List Addr, alookup c4st2.audio (some (PyVal.str "m1")) = some addrs →
      addrs.filter (fun x => decide (x.1 ≠ "10.0.0.1")) = [] →
      alookup (deregister c4st2 (some (PyVal.str "m1")) ("10.0.0.1", 1000)).audio
        (some (PyVal.str "m1")) = none) ∧
    (∀ a : Addr, a.1 = "10.0.0.1" →
      alookup (deregister c4st2 (some (PyVal.str "m1")) ("10.0.0.1", 1000)).toMeet a = none) ∧
    (∀ st2 : Registry, Reachable st2 → forwardInv st2) :=
  C4_deregistration_cleanup c4st2 (some (PyVal.str "m1")) ("10.0.0.1", 1000) (by decide)
